import Mathlib

/-!
# Tetris Stack: the circular queue of upcoming pieces (`tetris.c`)

A shallow embedding of `tetris.c`.

* C `int` values are `Int`; an arithmetic result outside `[INT_MIN, INT_MAX]`
  is undefined behaviour and is modelled by `none` (see `cInt`).
* An array access outside `buffer[0 .. QUEUE_CAPACITY-1]` is undefined
  behaviour and is modelled by `none` (see `slot`).
* C `%` on `int` truncates towards zero: `Int.tmod`.
* C `char` is `Char`; `stdin` is the list of characters not read yet and
  `stdout` the list of strings printed so far, one per `printf` call.
* A function that mutates `*fila` returns the new queue next to its C result.
-/

namespace Tetris

/-! ## Constants and data model -/

/-- Constant `#define QUEUE_CAPACITY 5`. -/
def QUEUE_CAPACITY : Nat := 5

/-- Constant `#define INPUT_BUFFER 64`. -/
def INPUT_BUFFER : Nat := 64

/-- Largest value of a C `int` (32 bits). -/
def INT_MAX : Int := 2147483647

/-- Smallest value of a C `int` (32 bits). -/
def INT_MIN : Int := -2147483648

/-- Type `typedef struct { char nome; int id; } Peca;` -/
structure Peca where
  nome : Char
  id : Int
deriving DecidableEq, Repr

/-- Type `typedef struct { Peca buffer[QUEUE_CAPACITY]; int head; int size; } FilaPecas;` -/
structure FilaPecas where
  buffer : Fin QUEUE_CAPACITY → Peca
  head : Int
  size : Int

/-- The result of an `int` computation: `none` when it does not fit in an
`int` (signed overflow is undefined behaviour in C). -/
def cInt (x : Int) : Option Int :=
  if INT_MIN ≤ x ∧ x ≤ INT_MAX then some x else none

/-- The slot of `buffer` designated by the C index `i`: `none` when the index
is outside the array (undefined behaviour in C). -/
def slot (i : Int) : Option (Fin QUEUE_CAPACITY) :=
  if h : 0 ≤ i ∧ i < (QUEUE_CAPACITY : Int) then
    some ⟨i.toNat, (Int.toNat_lt h.1).2 h.2⟩
  else none

/-! ## Piece generator -/

/-- Table `const char tipos[] = {'I','O','T','L'};` -/
def tipos : List Char := ['I', 'O', 'T', 'L']

/-- The pseudo-random source: the values the future calls of `rand()` return.
`rand` returns the first one and leaves the rest. -/
def rand (rng : Nat → Nat) : Nat × (Nat → Nat) :=
  (rng 0, fun n => rng (n + 1))

/-- Function `Peca gerarPeca(int id)`: the kind is `tipos[rand() % 4]`, the id is the
argument. Returns the piece and the advanced random source. -/
def gerarPeca (rng : Nat → Nat) (id : Int) : Peca × (Nat → Nat) :=
  let r := rand rng
  ({ nome := tipos.get ⟨r.1 % tipos.length, Nat.mod_lt _ (by decide)⟩, id := id }, r.2)

/-! ## Circular queue -/

/-- Function `void inicializarFila(FilaPecas *fila)`: sets `head` and `size` to 0 and
does not touch the buffer. -/
def inicializarFila (fila : FilaPecas) : FilaPecas :=
  { fila with head := 0, size := 0 }

/-- Function `bool filaVazia(const FilaPecas *fila)`. -/
def filaVazia (fila : FilaPecas) : Bool :=
  fila.size == 0

/-- Function `bool filaCheia(const FilaPecas *fila)`. -/
def filaCheia (fila : FilaPecas) : Bool :=
  fila.size == (QUEUE_CAPACITY : Int)

/-- Function `bool enqueue(FilaPecas *fila, Peca p)`: the returned pair is the C
result and the queue after the call. -/
def enqueue (fila : FilaPecas) (p : Peca) : Option (Bool × FilaPecas) :=
  if filaCheia fila then some (false, fila)
  else
    (cInt (fila.head + fila.size)).bind fun soma =>
    (slot (Int.tmod soma QUEUE_CAPACITY)).bind fun pos =>
    (cInt (fila.size + 1)).bind fun size1 =>
    some (true, { fila with buffer := Function.update fila.buffer pos p, size := size1 })

/-- Function `bool dequeue(FilaPecas *fila, Peca *out)`: the returned triple is the C
result, the queue after the call and the contents of `*out` after the call
(`out` is its contents before the call). -/
def dequeue (fila : FilaPecas) (out : Peca) : Option (Bool × FilaPecas × Peca) :=
  if filaVazia fila then some (false, fila, out)
  else
    (slot fila.head).bind fun h =>
    (cInt (fila.head + 1)).bind fun h1 =>
    (cInt (fila.size - 1)).bind fun size1 =>
    some (true, { fila with head := Int.tmod h1 QUEUE_CAPACITY, size := size1 }, fila.buffer h)

/-! ## Presentation -/

/-- Right-justifies `s` in a field of width `w` (the `%5d`, `%4c`, `%4d`
conversions of `printf`). -/
def padEsq (w : Nat) (s : String) : String :=
  String.mk (List.replicate (w - s.length) ' ') ++ s

/-- One table row: `printf("  %5d   %4c  %4d\n", i, nome, id)`. -/
def linhaTabela (i : Int) (p : Peca) : String :=
  "  " ++ padEsq 5 (toString i) ++ "   " ++ padEsq 4 (String.singleton p.nome) ++ "  "
    ++ padEsq 4 (toString p.id) ++ "\n"

/-- The body of the `for` loop of `mostrarFila` at index `i`. -/
def mostrarLinha (fila : FilaPecas) (i : Nat) : Option String :=
  (cInt (fila.head + i)).bind fun soma =>
  (slot (Int.tmod soma QUEUE_CAPACITY)).bind fun idx =>
  some (linhaTabela i (fila.buffer idx))

/-- Output of `printf("\nEstado atual da fila (capacidade %d):\n", QUEUE_CAPACITY)`. -/
def tituloFila : String :=
  "\nEstado atual da fila (capacidade " ++ toString QUEUE_CAPACITY ++ "):\n"

/-- Function `void mostrarFila(const FilaPecas *fila)`: the strings it prints. The
loop `for (i = 0; i < fila->size; ++i)` runs for `i = 0 .. size-1`. -/
def mostrarFila (fila : FilaPecas) : Option (List String) :=
  if filaVazia fila then some [tituloFila, "  [vazia]\n\n"]
  else
    ((List.range fila.size.toNat).mapM (mostrarLinha fila)).bind fun linhas =>
    some ([tituloFila, "  Índice  Tipo  ID\n"] ++ linhas ++ ["\n"])

/-! ## Reading the menu choice -/

/-- The loop of `fgets`: reads at most `k` characters and stops after a
newline or at the end of the input. Returns the characters read and the
input left. -/
def fgetsLoop : Nat → List Char → List Char × List Char
  | 0, cs => ([], cs)
  | _ + 1, [] => ([], [])
  | k + 1, c :: cs =>
    if c = '\n' then ([c], cs)
    else ((fgetsLoop k cs).1.cons c, (fgetsLoop k cs).2)

/-- Function `fgets(linha, n, stdin)`: `none` is the `NULL` result (end of input with
no character read); otherwise the line stored (at most `n - 1` characters)
and the input left. -/
def fgets (n : Nat) (stdin : List Char) : Option (List Char × List Char) :=
  if stdin = [] then none else some (fgetsLoop (n - 1) stdin)

/-- C `isspace` in the "C" locale. -/
def isspace (c : Char) : Bool :=
  c = ' ' || c = '\t' || c = '\n' || c = '\x0b' || c = '\x0c' || c = '\r'

/-- C `isdigit`. -/
def isdigit (c : Char) : Bool :=
  '0'.toNat ≤ c.toNat && c.toNat ≤ '9'.toNat

/-- Value of a run of decimal digits. -/
def valorDecimal (ds : List Char) : Nat :=
  ds.foldl (fun acc d => 10 * acc + (d.toNat - '0'.toNat)) 0

/-- Splits an optional sign off the input: `true` for a leading `-`. -/
def lerSinal : List Char → Bool × List Char
  | '-' :: t => (true, t)
  | '+' :: t => (false, t)
  | cs => (false, cs)

/-- Function `sscanf(linha, "%d", &opc)` on the C string held in `linha` (it ends at
the first NUL). The result is `none` when the behaviour is undefined (the
number does not fit in an `int`), `some none` when no conversion is made (the
call returns 0 or `EOF`, and `opc` is not written), and `some (some v)` when
the call returns 1 and stores `v`. -/
def sscanf_d (linha : List Char) : Option (Option Int) :=
  let str := linha.takeWhile (fun c => c != '\x00')
  let sinal := lerSinal (str.dropWhile isspace)
  let ds := sinal.2.takeWhile isdigit
  if ds = [] then some none
  else
    (cInt (if sinal.1 then -(valorDecimal ds : Int) else (valorDecimal ds : Int))).bind fun v =>
    some (some v)

/-- Function `int lerOpcao(void)`: the value returned and the input left. -/
def lerOpcao (stdin : List Char) : Option (Int × List Char) :=
  match fgets INPUT_BUFFER stdin with
  | none => some (-1, stdin)
  | some (linha, resto) =>
    (sscanf_d linha).bind fun r =>
    match r with
    | none => some (-1, resto)
    | some opc => some (opc, resto)

/-! ## Session -/

/-- The state of `main`: its locals `fila` and `proximoId`, the standard
input not read yet, the pseudo-random source and the standard output so far.
`geradas` is a ghost field, read by no code: the pieces returned by
`gerarPeca` so far, oldest first. -/
structure Sessao where
  fila : FilaPecas
  proximoId : Int
  stdin : List Char
  rng : Nat → Nat
  stdout : List String
  geradas : List Peca

/-- A sequence of `printf` calls. -/
def imprimir (s : Sessao) (linhas : List String) : Sessao :=
  { s with stdout := s.stdout ++ linhas }

/-- The five `printf` calls that show the menu. -/
def menu : List String :=
  ["Menu:\n",
   "  1 - Jogar peça (remover da frente)\n",
   "  2 - Inserir nova peça ao final (se houver espaço)\n",
   "  3 - Sair\n",
   "Escolha uma opção: "]

def msgEntradaInvalida : String := "Entrada inválida. Tente novamente.\n\n"

def msgFilaVazia : String := "\nA fila está vazia. Não há peça para jogar.\n"

def msgFilaCheia : String := "\nA fila está cheia. Não é possível inserir nova peça.\n"

def msgSaindo : String := "\nSaindo. Até logo.\n"

def msgOpcaoInvalida : String := "Opção inválida. Escolha 1, 2 ou 3.\n\n"

/-- Output of `printf("\nPeça jogada: Tipo '%c'  ID %d\n", removida.nome, removida.id)`. -/
def msgJogada (p : Peca) : String :=
  "\nPeça jogada: Tipo \x27" ++ String.singleton p.nome ++ "\x27  ID " ++ toString p.id ++ "\n"

/-- Output of `printf("\nNova peça inserida: Tipo '%c'  ID %d\n", nova.nome, nova.id)`. -/
def msgInserida (p : Peca) : String :=
  "\nNova peça inserida: Tipo \x27" ++ String.singleton p.nome ++ "\x27  ID " ++ toString p.id
    ++ "\n"

/-- Statements `Peca p = gerarPeca(proximoId++); enqueue(&fila, p);` as in the pre-fill
loop and under option 2 (the result of `enqueue` is discarded). Returns the
piece next to the new state. -/
def gerarEInserir (s : Sessao) : Option (Peca × Sessao) :=
  (cInt (s.proximoId + 1)).bind fun prox =>
  let g := gerarPeca s.rng s.proximoId
  (enqueue s.fila g.1).bind fun e =>
  some (g.1, { s with fila := e.2, proximoId := prox, rng := g.2,
                      geradas := s.geradas ++ [g.1] })

/-- The pre-fill loop `for (int i = 0; i < QUEUE_CAPACITY; ++i)`, with `k`
iterations left. -/
def preencher : Nat → Sessao → Option Sessao
  | 0, s => some s
  | k + 1, s => (gerarEInserir s).bind fun r => preencher k r.2

/-- The dispatch on `opc` in the body of the menu loop, after `lerOpcao`.
`removida` is the indeterminate initial value of the local of that name.
The Boolean is `false` when the loop is left by `break`. -/
def despachar (removida : Peca) (opc : Int) (s : Sessao) : Option (Bool × Sessao) :=
  if opc = -1 then some (true, imprimir s [msgEntradaInvalida])
  else if opc = 1 then
    (dequeue s.fila removida).bind fun d =>
    let s1 := { s with fila := d.2.1 }
    let s2 := if d.1 then imprimir s1 [msgJogada d.2.2] else imprimir s1 [msgFilaVazia]
    (mostrarFila s2.fila).bind fun m => some (true, imprimir s2 m)
  else if opc = 2 then
    if filaCheia s.fila then
      let s1 := imprimir s [msgFilaCheia]
      (mostrarFila s1.fila).bind fun m => some (true, imprimir s1 m)
    else
      (gerarEInserir s).bind fun r =>
      let s1 := imprimir r.2 [msgInserida r.1]
      (mostrarFila s1.fila).bind fun m => some (true, imprimir s1 m)
  else if opc = 3 then some (false, imprimir s [msgSaindo])
  else some (true, imprimir s [msgOpcaoInvalida])

/-- One iteration of `while (1)`: show the menu, read the choice, dispatch. -/
def iteracao (removida : Peca) (s : Sessao) : Option (Bool × Sessao) :=
  let s1 := imprimir s menu
  (lerOpcao s1.stdin).bind fun r =>
  despachar removida r.1 { s1 with stdin := r.2 }

/-- Function `main` up to the first iteration of the menu loop. `fila0` is the
indeterminate initial value of the local `fila`; `rng` is the random source
as seeded by `srand`. -/
def iniciar (fila0 : FilaPecas) (stdin : List Char) (rng : Nat → Nat) : Option Sessao :=
  (preencher QUEUE_CAPACITY
    { fila := inicializarFila fila0, proximoId := 1, stdin := stdin, rng := rng,
      stdout := [], geradas := [] }).bind fun s =>
  let s1 := imprimir s ["Tetris Stack - Simulador da fila de peças\n",
    "Fila inicializada com " ++ toString QUEUE_CAPACITY ++ " peças.\n"]
  (mostrarFila s1.fila).bind fun m => some (imprimir s1 m)

/-- At most `n` iterations of the menu loop. The Boolean is `true` while the
loop is still running and `false` once it was left by `break`. -/
def laco (removida : Peca) : Nat → Sessao → Option (Bool × Sessao)
  | 0, s => some (true, s)
  | n + 1, s =>
    (iteracao removida s).bind fun r =>
    if r.1 then laco removida n r.2 else some (false, r.2)

/-- Function `int main(void)`, observed after at most `n` iterations of the menu
loop. -/
def main (fila0 : FilaPecas) (removida : Peca) (stdin : List Char) (rng : Nat → Nat)
    (n : Nat) : Option (Bool × Sessao) :=
  (iniciar fila0 stdin rng).bind fun s => laco removida n s

/-! ## Notions used to state the properties -/

/-- The queue invariant: `0 <= size <= QUEUE_CAPACITY` and
`0 <= head < QUEUE_CAPACITY`. -/
def Inv (fila : FilaPecas) : Prop :=
  0 ≤ fila.size ∧ fila.size ≤ (QUEUE_CAPACITY : Int) ∧
  0 ≤ fila.head ∧ fila.head < (QUEUE_CAPACITY : Int)

instance (fila : FilaPecas) : Decidable (Inv fila) := by
  unfold Inv; infer_instance

/-- The buffer slot of logical position `i`: index `(head + i) mod C`. -/
def slotLogico (fila : FilaPecas) (i : Nat) : Fin QUEUE_CAPACITY :=
  ⟨(fila.head.toNat + i) % QUEUE_CAPACITY, Nat.mod_lt _ (by decide)⟩

/-- The logical contents, front to back: the pieces in the slots
`(head + i) mod C` for `i` in `[0, size)`. -/
def conteudo (fila : FilaPecas) : List Peca :=
  (List.range fila.size.toNat).map fun i => fila.buffer (slotLogico fila i)

/-- The table rows for the pieces `ps` listed front to back: row `i` shows
`i` and the kind and id of the `i`-th piece. -/
def tabela (ps : List Peca) : List String :=
  List.zipWith (fun (i : Nat) p => linhaTabela i p) (List.range ps.length) ps

/-- A call on the queue: `enqueue(&fila, p)`, or `dequeue(&fila, &out)` with
`out` holding the given piece before the call. -/
inductive Op where
  | enq (p : Peca)
  | deq (out : Peca)

/-- The queue after one call, whatever the call returns. -/
def aplicarOp (fila : FilaPecas) : Op → Option FilaPecas
  | Op.enq p => (enqueue fila p).map fun r => r.2
  | Op.deq out => (dequeue fila out).map fun r => r.2.1

/-- The queue after a sequence of calls, first call first. -/
def aplicar : List Op → FilaPecas → Option FilaPecas
  | [], fila => some fila
  | op :: ops, fila => (aplicarOp fila op).bind (aplicar ops)

/-- Enqueues the pieces of a list in order; `none` as soon as a call is
rejected (returns false) or undefined. -/
def enfileirar : List Peca → FilaPecas → Option FilaPecas
  | [], fila => some fila
  | p :: ps, fila =>
    (enqueue fila p).bind fun r => if r.1 then enfileirar ps r.2 else none

/-- Dequeues `k` times; returns the pieces written to `*out`, in order, and
the queue left. `none` as soon as a call is rejected or undefined. -/
def desenfileirar : Nat → FilaPecas → Peca → Option (List Peca × FilaPecas)
  | 0, fila, _ => some ([], fila)
  | k + 1, fila, out =>
    (dequeue fila out).bind fun r =>
      if r.1 then
        (desenfileirar k r.2.1 r.2.2).map fun t => (r.2.2 :: t.1, t.2)
      else none

/-- The ids of the queued pieces, front to back. -/
def idsFila (s : Sessao) : List Int :=
  (conteudo s.fila).map Peca.id

/-- The generated pieces carry the ids 1, 2, 3, ... in generation order and
the counter is one more than their number. -/
def IdsEmOrdem (s : Sessao) : Prop :=
  s.proximoId = (s.geradas.length : Int) + 1 ∧
  s.geradas.map Peca.id = (List.range s.geradas.length).map fun (i : Nat) => (i : Int) + 1

/-- Choice 1 on a non-empty queue, from `sa` to `sb`: the front piece `p`,
with id `k`, leaves the queue and is reported, then the queue is shown. -/
def jogou (sa sb : Sessao) (k : Int) : Prop :=
  ∃ p m, p.id = k ∧ conteudo sa.fila = p :: conteudo sb.fila ∧
    sb.stdout = sa.stdout ++ menu ++ [msgJogada p] ++ m

/-- Choice 2 on a non-full queue, from `sa` to `sb`: a piece `p` with id `k`
is generated, joins the queue at the back and is reported, then the queue is
shown. -/
def inseriu (sa sb : Sessao) (k : Int) : Prop :=
  ∃ p m, p.id = k ∧ conteudo sb.fila = conteudo sa.fila ++ [p] ∧
    sb.geradas = sa.geradas ++ [p] ∧
    sb.stdout = sa.stdout ++ menu ++ [msgInserida p] ++ m

/-- The input of the reference scenario: play, insert, insert, play six
times. -/
def entradaCenario : List Char := "1\n2\n2\n1\n1\n1\n1\n1\n1\n".toList

/-- The iteration that starts in `s` is an accepted insert: `lerOpcao` yields
2 and the queue is not full. -/
def insercaoAceita (s : Sessao) : Bool :=
  decide ((lerOpcao s.stdin).map Prod.fst = some 2) && !filaCheia s.fila

/-- Number of accepted inserts in the first `n` iterations of the menu loop
started in `s` (iterations after a `break` do not exist and count for 0). -/
def aceitas (removida : Peca) : Nat → Sessao → Nat
  | 0, _ => 0
  | n + 1, s =>
    (if insercaoAceita s then 1 else 0) +
      match iteracao removida s with
      | some (true, s1) => aceitas removida n s1
      | _ => 0

/-- The state of `main` before the pre-fill loop. -/
def sessaoInicial (fila0 : FilaPecas) (stdin : List Char) (rng : Nat → Nat) : Sessao :=
  { fila := inicializarFila fila0, proximoId := 1, stdin := stdin, rng := rng,
    stdout := [], geradas := [] }

/-- The run of ids `proximoId - size, ..., proximoId - 1`. -/
def corrida (s : Sessao) : List Int :=
  (List.range s.fila.size.toNat).map fun (i : Nat) => s.proximoId - s.fila.size + i

/-- Invariant of the session: the queue invariant, a counter that is at least
1, and queued ids that form the run ending just below the counter. -/
def SessaoInv (s : Sessao) : Prop :=
  Inv s.fila ∧ 1 ≤ s.proximoId ∧ idsFila s = corrida s

/-- Decimal numerals: `ds` is a decimal numeral of `x`, one or more digits
whose value is the magnitude of `x`, after a minus sign when `x` is negative. -/
def Decimal (x : Int) (ds : List Char) : Prop :=
  (0 ≤ x ∧ ds ≠ [] ∧ (∀ c ∈ ds, isdigit c = true) ∧ (valorDecimal ds : Int) = x) ∨
  (x < 0 ∧ ∃ ms : List Char, ds = '-' :: ms ∧ ms ≠ [] ∧ (∀ c ∈ ms, isdigit c = true) ∧
    (valorDecimal ms : Int) = -x)

/-- The text of a table row that shows position `i`, kind `c` and id `x` the
way `printf("  %5d   %4c  %4d\n", i, c, x)` lays it out: two spaces, the
numeral of `i` right-justified in 5 columns, three spaces, `c` right-justified
in 4 columns, two spaces, the numeral of `x` right-justified in 4 columns, and
a newline. -/
def MostraLinha (linha : String) (i : Int) (c : Char) (x : Int) : Prop :=
  ∃ di dx : List Char, Decimal i di ∧ Decimal x dx ∧
    linha.data = List.replicate 2 ' ' ++ (List.replicate (5 - di.length) ' ' ++ di) ++
      List.replicate 3 ' ' ++ (List.replicate 3 ' ' ++ [c]) ++
      List.replicate 2 ' ' ++ (List.replicate (4 - dx.length) ' ' ++ dx) ++ ['\n']

/-! ## Concrete inputs -/

/-- A piece. -/
def pecaEx : Peca := { nome := 'T', id := 9 }

/-- A buffer whose slot `i` holds a piece with id `i`. -/
def bufferEx : Fin QUEUE_CAPACITY → Peca :=
  fun i => { nome := 'I', id := ((i : Nat) : Int) }

/-- A full queue whose front is slot 3. -/
def filaCheiaEx : FilaPecas := { buffer := bufferEx, head := 3, size := 5 }

/-- An empty queue whose front is slot 3. -/
def filaVaziaEx : FilaPecas := { buffer := bufferEx, head := 3, size := 0 }

/-- A queue of two pieces, in slots 3 and 4: the next enqueue wraps to slot 0. -/
def filaEx : FilaPecas := { buffer := bufferEx, head := 3, size := 2 }

/-- Five pieces, with ids 1 to 5. -/
def pecasEx : List Peca :=
  [{ nome := 'I', id := 1 }, { nome := 'O', id := 2 }, { nome := 'T', id := 3 },
   { nome := 'L', id := 4 }, { nome := 'I', id := 5 }]

/-- Three more pieces, with ids 6 to 8. -/
def novasEx : List Peca :=
  [{ nome := 'O', id := 6 }, { nome := 'T', id := 7 }, { nome := 'L', id := 8 }]

/-- A session state in the menu loop with the given input left. -/
def sessaoEx (stdin : List Char) : Sessao :=
  { fila := filaEx, proximoId := 8, stdin := stdin, rng := fun n => n, stdout := [],
    geradas := [] }

/-- The state of `main` after the two choices `1` and `2`, with `rand`
returning 0, 1, 2, ... -/
def sessaoFinalEx : Sessao :=
  ((main filaEx pecaEx "1\n2\n".toList (fun n => n) 2).getD (true, sessaoEx [])).2

/-! ## Helper lemmas: the queue operations under the invariant -/

theorem cInt_of_bounds {x : Int} (h1 : INT_MIN ≤ x) (h2 : x ≤ INT_MAX) : cInt x = some x := by
  simp [cInt, h1, h2]

theorem slot_of_bounds {i : Int} (h1 : 0 ≤ i) (h2 : i < 5) :
    slot i = some ⟨i.toNat, (Int.toNat_lt h1).2 h2⟩ := by
  have : 0 ≤ i ∧ i < (QUEUE_CAPACITY : Int) := ⟨h1, h2⟩
  simp [slot, this]

/-- Under the invariant the index `(head + i) % QUEUE_CAPACITY` computed in C
designates the slot of logical position `i`. -/
theorem slot_tmod (fila : FilaPecas) (i : Nat) (hI : Inv fila) :
    slot (Int.tmod (fila.head + i) QUEUE_CAPACITY) = some (slotLogico fila i) := by
  obtain ⟨-, -, h3, h4⟩ := hI
  simp only [QUEUE_CAPACITY, Nat.cast_ofNat] at *
  rw [Int.tmod_eq_emod (by omega) (by omega), slot_of_bounds (by omega) (by omega)]
  simp only [slotLogico, QUEUE_CAPACITY, Option.some.injEq, Fin.mk.injEq]
  omega

theorem enqueue_cheia (fila : FilaPecas) (p : Peca) (h : fila.size = (QUEUE_CAPACITY : Int)) :
    enqueue fila p = some (false, fila) := by
  simp [enqueue, filaCheia, h]

theorem dequeue_vazia (fila : FilaPecas) (out : Peca) (h : fila.size = 0) :
    dequeue fila out = some (false, fila, out) := by
  simp [dequeue, filaVazia, h]

theorem enqueue_ok (fila : FilaPecas) (p : Peca) (hI : Inv fila)
    (hs : fila.size < (QUEUE_CAPACITY : Int)) :
    enqueue fila p = some (true,
      { fila with buffer := Function.update fila.buffer (slotLogico fila fila.size.toNat) p,
                  size := fila.size + 1 }) := by
  have e4 := slot_tmod fila fila.size.toNat hI
  obtain ⟨h1, h2, h3, h4⟩ := hI
  simp only [QUEUE_CAPACITY, Nat.cast_ofNat] at *
  have hne : filaCheia fila = false := by
    simp [filaCheia, QUEUE_CAPACITY]; omega
  have e1 : cInt (fila.head + fila.size) = some (fila.head + fila.size) :=
    cInt_of_bounds (by simp [INT_MIN]; omega) (by simp [INT_MAX]; omega)
  have e2 : cInt (fila.size + 1) = some (fila.size + 1) :=
    cInt_of_bounds (by simp [INT_MIN]; omega) (by simp [INT_MAX]; omega)
  rw [Int.toNat_of_nonneg h1] at e4
  simp [enqueue, hne, e1, e2, QUEUE_CAPACITY, e4]

theorem dequeue_ok (fila : FilaPecas) (out : Peca) (hI : Inv fila) (hs : 0 < fila.size) :
    dequeue fila out = some (true,
      { fila with head := (fila.head + 1) % 5, size := fila.size - 1 },
      fila.buffer (slotLogico fila 0)) := by
  have e4 := slot_tmod fila 0 hI
  obtain ⟨h1, h2, h3, h4⟩ := hI
  simp only [QUEUE_CAPACITY, Nat.cast_ofNat] at *
  have hne : filaVazia fila = false := by
    simp [filaVazia]; omega
  have e1 : cInt (fila.head + 1) = some (fila.head + 1) :=
    cInt_of_bounds (by simp [INT_MIN]; omega) (by simp [INT_MAX]; omega)
  have e2 : cInt (fila.size - 1) = some (fila.size - 1) :=
    cInt_of_bounds (by simp [INT_MIN]; omega) (by simp [INT_MAX]; omega)
  have e3 : Int.tmod (fila.head + 1) 5 = (fila.head + 1) % 5 :=
    Int.tmod_eq_emod (by omega) (by omega)
  have e5 : Int.tmod fila.head 5 = fila.head := by
    rw [Int.tmod_eq_emod (by omega) (by omega)]; omega
  simp only [Nat.cast_zero, add_zero, e5] at e4
  simp [dequeue, hne, e1, e2, QUEUE_CAPACITY, e3, e4]

theorem inv_inicializar (fila0 : FilaPecas) : Inv (inicializarFila fila0) := by
  simp [Inv, inicializarFila, QUEUE_CAPACITY]

theorem inv_apos_enqueue (fila : FilaPecas) (x : Fin QUEUE_CAPACITY) (p : Peca) (hI : Inv fila)
    (hs : fila.size < (QUEUE_CAPACITY : Int)) :
    Inv { fila with buffer := Function.update fila.buffer x p, size := fila.size + 1 } := by
  obtain ⟨h1, h2, h3, h4⟩ := hI
  simp only [Inv, QUEUE_CAPACITY, Nat.cast_ofNat] at *
  omega

theorem inv_apos_dequeue (fila : FilaPecas) (hI : Inv fila) (hs : 0 < fila.size) :
    Inv { fila with head := (fila.head + 1) % 5, size := fila.size - 1 } := by
  obtain ⟨h1, h2, h3, h4⟩ := hI
  simp only [Inv, QUEUE_CAPACITY, Nat.cast_ofNat] at *
  omega

/-- Under the invariant `enqueue` is defined and keeps the invariant. -/
theorem enqueue_inv (fila : FilaPecas) (p : Peca) (hI : Inv fila) :
    ∃ b fila1, enqueue fila p = some (b, fila1) ∧ Inv fila1 := by
  by_cases hs : fila.size < (QUEUE_CAPACITY : Int)
  · exact ⟨true, _, enqueue_ok fila p hI hs, inv_apos_enqueue fila _ p hI hs⟩
  · have h : fila.size = (QUEUE_CAPACITY : Int) := le_antisymm hI.2.1 (not_lt.1 hs)
    exact ⟨false, fila, enqueue_cheia fila p h, hI⟩

/-- Under the invariant `dequeue` is defined and keeps the invariant. -/
theorem dequeue_inv (fila : FilaPecas) (out : Peca) (hI : Inv fila) :
    ∃ b fila1 out1, dequeue fila out = some (b, fila1, out1) ∧ Inv fila1 := by
  by_cases hs : 0 < fila.size
  · exact ⟨true, _, _, dequeue_ok fila out hI hs, inv_apos_dequeue fila hI hs⟩
  · have h : fila.size = 0 := le_antisymm (not_lt.1 hs) hI.1
    exact ⟨false, fila, out, dequeue_vazia fila out h, hI⟩

theorem aplicar_inv (ops : List Op) :
    ∀ fila, Inv fila → ∃ fila1, aplicar ops fila = some fila1 ∧ Inv fila1 := by
  induction ops with
  | nil => intro fila hI; exact ⟨fila, rfl, hI⟩
  | cons op ops ih =>
    intro fila hI
    cases op with
    | enq p =>
      obtain ⟨b, f1, he, hI1⟩ := enqueue_inv fila p hI
      obtain ⟨f2, h2, hI2⟩ := ih f1 hI1
      exact ⟨f2, by simp [aplicar, aplicarOp, he, h2], hI2⟩
    | deq out =>
      obtain ⟨b, f1, o1, he, hI1⟩ := dequeue_inv fila out hI
      obtain ⟨f2, h2, hI2⟩ := ih f1 hI1
      exact ⟨f2, by simp [aplicar, aplicarOp, he, h2], hI2⟩

theorem conteudo_enqueue (fila : FilaPecas) (p : Peca) (hI : Inv fila)
    (hs : fila.size < (QUEUE_CAPACITY : Int)) :
    conteudo { fila with buffer := Function.update fila.buffer (slotLogico fila fila.size.toNat) p,
                         size := fila.size + 1 } = conteudo fila ++ [p] := by
  obtain ⟨h1, h2, h3, h4⟩ := hI
  simp only [QUEUE_CAPACITY, Nat.cast_ofNat] at *
  have hn : (fila.size + 1).toNat = fila.size.toNat + 1 := by omega
  simp only [conteudo, hn, List.range_succ, List.map_append, List.map_cons, List.map_nil]
  congr 1
  · apply List.map_congr_left
    intro i hi
    rw [List.mem_range] at hi
    have hne : slotLogico fila i ≠ slotLogico fila fila.size.toNat := by
      simp only [slotLogico, QUEUE_CAPACITY, ne_eq, Fin.mk.injEq]
      omega
    simpa [slotLogico] using Function.update_noteq hne p fila.buffer
  · simp [slotLogico]

theorem conteudo_dequeue (fila : FilaPecas) (hI : Inv fila) (hs : 0 < fila.size) :
    conteudo fila = fila.buffer (slotLogico fila 0) ::
      conteudo { fila with head := (fila.head + 1) % 5, size := fila.size - 1 } := by
  obtain ⟨h1, h2, h3, h4⟩ := hI
  simp only [QUEUE_CAPACITY, Nat.cast_ofNat] at *
  obtain ⟨n, hn⟩ : ∃ n : Nat, fila.size.toNat = n + 1 := ⟨fila.size.toNat - 1, by omega⟩
  have hn1 : (fila.size - 1).toNat = n := by omega
  simp only [conteudo, hn, hn1, List.range_succ_eq_map, List.map_cons, List.map_map]
  congr 1
  apply List.map_congr_left
  intro i _
  simp only [Function.comp, slotLogico, QUEUE_CAPACITY]
  congr 2
  omega

theorem conteudo_length (fila : FilaPecas) : (conteudo fila).length = fila.size.toNat := by
  simp [conteudo]

/-! ## The queue: invariant, rejected calls, successful calls -/

/-- C1. The queue invariant `0 <= size <= QUEUE_CAPACITY`, `0 <= head <
QUEUE_CAPACITY` is established by `inicializarFila`, is preserved by `enqueue`
and by `dequeue` (which are defined under it, whether they succeed or are
rejected), and so holds after every finite sequence of calls made on the
initialized queue. -/
theorem fila_invariante :
    (∀ fila0 : FilaPecas, Inv (inicializarFila fila0)) ∧
    (∀ (fila : FilaPecas) (p : Peca), Inv fila →
      ∃ b fila1, enqueue fila p = some (b, fila1) ∧ Inv fila1) ∧
    (∀ (fila : FilaPecas) (out : Peca), Inv fila →
      ∃ b fila1 out1, dequeue fila out = some (b, fila1, out1) ∧ Inv fila1) ∧
    (∀ (fila0 : FilaPecas) (ops : List Op),
      ∃ fila1, aplicar ops (inicializarFila fila0) = some fila1 ∧
        0 ≤ fila1.size ∧ fila1.size ≤ (QUEUE_CAPACITY : Int) ∧
        0 ≤ fila1.head ∧ fila1.head < (QUEUE_CAPACITY : Int)) :=
  ⟨inv_inicializar, enqueue_inv, dequeue_inv,
    fun fila0 ops => aplicar_inv ops _ (inv_inicializar fila0)⟩

/-- C2. On a full queue (`size == QUEUE_CAPACITY`, whatever `head` and the
buffer are) `enqueue` returns false and leaves the queue as it was; a second
call does the same. -/
theorem enqueue_cheia_rejeitado (fila : FilaPecas) (p : Peca)
    (h : fila.size = (QUEUE_CAPACITY : Int)) :
    enqueue fila p = some (false, fila) ∧
    ((enqueue fila p).bind fun r => enqueue r.2 p) = some (false, fila) := by
  simp [enqueue_cheia fila p h]

/-- C3. On an empty queue (`size == 0`, whatever `head` is) `dequeue` returns
false, leaves `*out` as it was and leaves the queue as it was. -/
theorem dequeue_vazia_rejeitado (fila : FilaPecas) (out : Peca) (h : fila.size = 0) :
    dequeue fila out = some (false, fila, out) :=
  dequeue_vazia fila out h

/-- C4. On a queue that satisfies the invariant and is not full, `enqueue`
returns true, stores `p` in slot `(head + size) mod QUEUE_CAPACITY`, adds 1 to
`size`, leaves `head` and every other slot as they were, and the logical
contents become the old ones followed by `p`. -/
theorem enqueue_sucesso (fila : FilaPecas) (p : Peca) (hI : Inv fila)
    (hs : fila.size < (QUEUE_CAPACITY : Int)) :
    ∃ fila1, enqueue fila p = some (true, fila1) ∧
      (∀ j : Fin QUEUE_CAPACITY,
        ((j : Nat) : Int) = (fila.head + fila.size) % (QUEUE_CAPACITY : Int) →
          fila1.buffer j = p) ∧
      (∀ j : Fin QUEUE_CAPACITY,
        ((j : Nat) : Int) ≠ (fila.head + fila.size) % (QUEUE_CAPACITY : Int) →
          fila1.buffer j = fila.buffer j) ∧
      fila1.size = fila.size + 1 ∧
      fila1.head = fila.head ∧
      conteudo fila1 = conteudo fila ++ [p] := by
  refine ⟨_, enqueue_ok fila p hI hs, ?_, ?_, rfl, rfl, conteudo_enqueue fila p hI hs⟩
  · intro j hj
    have : j = slotLogico fila fila.size.toNat := by
      obtain ⟨h1, h2, h3, h4⟩ := hI
      apply Fin.ext
      simp only [slotLogico, QUEUE_CAPACITY, Nat.cast_ofNat] at *
      omega
    rw [this]
    exact Function.update_same _ _ _
  · intro j hj
    have : j ≠ slotLogico fila fila.size.toNat := by
      obtain ⟨h1, h2, h3, h4⟩ := hI
      intro hc
      apply hj
      rw [hc]
      simp only [slotLogico, QUEUE_CAPACITY, Nat.cast_ofNat] at *
      omega
    exact Function.update_noteq this _ _

/-- C5. On a queue that satisfies the invariant and is not empty, `dequeue`
returns true, writes the piece of slot `head` to `*out`, sets `head` to
`(head + 1) mod QUEUE_CAPACITY`, subtracts 1 from `size`, changes no buffer
slot, and the logical contents lose exactly their first element. -/
theorem dequeue_sucesso (fila : FilaPecas) (out : Peca) (hI : Inv fila) (hs : 0 < fila.size) :
    ∃ fila1 out1, dequeue fila out = some (true, fila1, out1) ∧
      (∀ j : Fin QUEUE_CAPACITY, ((j : Nat) : Int) = fila.head → out1 = fila.buffer j) ∧
      fila1.head = (fila.head + 1) % (QUEUE_CAPACITY : Int) ∧
      fila1.size = fila.size - 1 ∧
      fila1.buffer = fila.buffer ∧
      conteudo fila = out1 :: conteudo fila1 ∧
      conteudo fila1 = (conteudo fila).tail := by
  have hc := conteudo_dequeue fila hI hs
  refine ⟨_, _, dequeue_ok fila out hI hs, ?_, rfl, rfl, rfl, hc, by rw [hc]; rfl⟩
  intro j hj
  congr 1
  obtain ⟨h1, h2, h3, h4⟩ := hI
  apply Fin.ext
  simp only [slotLogico, QUEUE_CAPACITY, Nat.cast_ofNat] at *
  omega

/-! ## Helper lemmas: rendering under the invariant -/

theorem mapM_some {α β : Type} (f : α → Option β) (g : α → β) (l : List α)
    (h : ∀ x ∈ l, f x = some (g x)) : l.mapM f = some (l.map g) := by
  induction l with
  | nil => rfl
  | cons x xs ih =>
    have hx := h x (List.mem_cons_self x xs)
    have hxs := ih (fun y hy => h y (List.mem_cons_of_mem x hy))
    rw [List.mapM_cons, hx, hxs]
    rfl

theorem mostrarLinha_ok (fila : FilaPecas) (i : Nat) (hI : Inv fila) (hi : i < QUEUE_CAPACITY) :
    mostrarLinha fila i = some (linhaTabela i (fila.buffer (slotLogico fila i))) := by
  have e4 := slot_tmod fila i hI
  obtain ⟨h1, h2, h3, h4⟩ := hI
  simp only [QUEUE_CAPACITY, Nat.cast_ofNat] at *
  have e1 : cInt (fila.head + i) = some (fila.head + i) :=
    cInt_of_bounds (by simp [INT_MIN]; omega) (by simp [INT_MAX]; omega)
  simp [mostrarLinha, e1, e4, QUEUE_CAPACITY]

theorem mostrarFila_ok (fila : FilaPecas) (hI : Inv fila) (hs : 0 < fila.size) :
    mostrarFila fila =
      some ([tituloFila, "  Índice  Tipo  ID\n"] ++ tabela (conteudo fila) ++ ["\n"]) := by
  have hne : filaVazia fila = false := by
    simp [filaVazia]; omega
  have hm := mapM_some (mostrarLinha fila)
    (fun (i : Nat) => linhaTabela i (fila.buffer (slotLogico fila i)))
    (List.range fila.size.toNat) (fun i hi => mostrarLinha_ok fila i hI (by
      have h2 := hI.2.1
      rw [List.mem_range] at hi
      simp only [QUEUE_CAPACITY, Nat.cast_ofNat] at *
      omega))
  have ht : tabela (conteudo fila) = (List.range fila.size.toNat).map
      (fun (i : Nat) => linhaTabela i (fila.buffer (slotLogico fila i))) := by
    simp [tabela, conteudo, List.zipWith_map_right, List.zipWith_same]
  rw [ht]
  simp only [mostrarFila, hne, Bool.false_eq_true, if_false]
  rw [hm]
  rfl

theorem mostrarFila_vazia (fila : FilaPecas) (hs : fila.size = 0) :
    mostrarFila fila = some [tituloFila, "  [vazia]\n\n"] := by
  simp [mostrarFila, filaVazia, hs]

/-! ## FIFO order and wraparound -/

theorem enfileirar_ok (ps : List Peca) :
    ∀ fila, Inv fila → fila.size + ps.length ≤ (QUEUE_CAPACITY : Int) →
      ∃ fila1, enfileirar ps fila = some fila1 ∧ Inv fila1 ∧
        fila1.size = fila.size + ps.length ∧ fila1.head = fila.head ∧
        conteudo fila1 = conteudo fila ++ ps := by
  induction ps with
  | nil => intro fila hI _; exact ⟨fila, rfl, hI, by simp, rfl, by simp⟩
  | cons p ps ih =>
    intro fila hI hs
    simp only [List.length_cons, Nat.cast_add, Nat.cast_one] at hs
    have hlt : fila.size < (QUEUE_CAPACITY : Int) := by omega
    obtain ⟨f2, h2, hI2, hsz, hhd, hct⟩ :=
      ih _ (inv_apos_enqueue fila (slotLogico fila fila.size.toNat) p hI hlt)
        (by simp only []; omega)
    refine ⟨f2, ?_, hI2, ?_, hhd, ?_⟩
    · simp [enfileirar, enqueue_ok fila p hI hlt, h2]
    · rw [hsz]; simp only [List.length_cons, Nat.cast_add, Nat.cast_one]; omega
    · rw [hct, conteudo_enqueue fila p hI hlt]; simp

theorem desenfileirar_ok (k : Nat) :
    ∀ fila out, Inv fila → (k : Int) ≤ fila.size →
      ∃ fila1, desenfileirar k fila out = some ((conteudo fila).take k, fila1) ∧ Inv fila1 ∧
        fila1.size = fila.size - k ∧ fila1.head = (fila.head + k) % 5 ∧
        fila1.buffer = fila.buffer ∧ conteudo fila1 = (conteudo fila).drop k := by
  induction k with
  | zero =>
    intro fila out hI _
    refine ⟨fila, rfl, hI, by simp, ?_, rfl, rfl⟩
    obtain ⟨h1, h2, h3, h4⟩ := hI
    simp only [QUEUE_CAPACITY, Nat.cast_ofNat, Nat.cast_zero, add_zero] at *
    omega
  | succ k ih =>
    intro fila out hI hs
    simp only [Nat.cast_add, Nat.cast_one] at hs
    have hpos : 0 < fila.size := by omega
    obtain ⟨f2, h2, hI2, hsz, hhd, hbuf, hct⟩ :=
      ih _ (fila.buffer (slotLogico fila 0)) (inv_apos_dequeue fila hI hpos)
        (by simp only []; omega)
    have hc := conteudo_dequeue fila hI hpos
    refine ⟨f2, ?_, hI2, ?_, ?_, hbuf, ?_⟩
    · simp [desenfileirar, dequeue_ok fila out hI hpos, h2, hc]
    · rw [hsz]; simp only [Nat.cast_add, Nat.cast_one]; omega
    · rw [hhd]; simp only [Nat.cast_add, Nat.cast_one]; omega
    · rw [hct, hc]; simp

/-- C6. FIFO order: on a queue that satisfies the invariant and holds
`s <= QUEUE_CAPACITY - 3` pieces, enqueuing `a`, `b`, `c` succeeds three
times, and the next `s + 3` dequeues all succeed and return the `s` pieces
already queued, in their order, followed by `a`, `b`, `c`, leaving the queue
empty. In particular on an empty queue three dequeues return `a`, `b`, `c`. -/
theorem fifo_ordem (fila : FilaPecas) (a b c out : Peca) (hI : Inv fila)
    (hs : fila.size ≤ (QUEUE_CAPACITY : Int) - 3) :
    ∃ fila3 fila4, enfileirar [a, b, c] fila = some fila3 ∧
      desenfileirar (fila.size.toNat + 3) fila3 out
        = some (conteudo fila ++ [a, b, c], fila4) ∧
      fila4.size = 0 ∧
      (fila.size = 0 → desenfileirar 3 fila3 out = some ([a, b, c], fila4)) := by
  obtain ⟨f3, h3, hI3, hsz3, -, hct3⟩ := enfileirar_ok [a, b, c] fila hI (by
    simp only [List.length_cons, List.length_nil]; push_cast; omega)
  have h0 := hI.1
  simp only [List.length_cons, List.length_nil, zero_add, Nat.reduceAdd, Nat.cast_ofNat] at hsz3
  obtain ⟨f4, h4, -, hsz4, -, -, -⟩ := desenfileirar_ok (fila.size.toNat + 3) f3 out hI3 (by
    push_cast; omega)
  have hlen : (conteudo fila ++ [a, b, c]).length = fila.size.toNat + 3 := by
    simp [conteudo_length]
  rw [hct3, ← hlen, List.take_length, hlen] at h4
  refine ⟨f3, f4, h3, h4, ?_, ?_⟩
  · rw [hsz4, hsz3]; push_cast; omega
  · intro hz
    have hc : conteudo fila = [] := by
      apply List.eq_nil_of_length_eq_zero; rw [conteudo_length, hz]; rfl
    simpa [hz, hc] using h4

/-- C7. Wraparound: from the initialized empty queue, enqueuing
`QUEUE_CAPACITY` pieces `ps`, dequeuing `k <= QUEUE_CAPACITY` times and
enqueuing `k` pieces `qs` all succeed (the dequeues return the first `k`
pieces of `ps`), and the queue is then full with logical contents, front to
back, the rest of `ps` followed by `qs`; `mostrarFila` lists exactly these
rows in this order, although `head` is then `k mod QUEUE_CAPACITY`. -/
theorem wraparound (fila0 : FilaPecas) (ps qs : List Peca) (k : Nat) (out : Peca)
    (hk : k ≤ QUEUE_CAPACITY) (hps : ps.length = QUEUE_CAPACITY) (hqs : qs.length = k) :
    ∃ fila1 fila2 fila3,
      enfileirar ps (inicializarFila fila0) = some fila1 ∧
      desenfileirar k fila1 out = some (ps.take k, fila2) ∧
      enfileirar qs fila2 = some fila3 ∧
      fila3.size = (QUEUE_CAPACITY : Int) ∧
      fila3.head = ((k % QUEUE_CAPACITY : Nat) : Int) ∧
      conteudo fila3 = ps.drop k ++ qs ∧
      mostrarFila fila3
        = some ([tituloFila, "  Índice  Tipo  ID\n"] ++ tabela (ps.drop k ++ qs) ++ ["\n"]) := by
  have hc0 : conteudo (inicializarFila fila0) = [] := by simp [conteudo, inicializarFila]
  obtain ⟨f1, h1, hI1, hsz1, hhd1, hct1⟩ :=
    enfileirar_ok ps (inicializarFila fila0) (inv_inicializar fila0) (by
      simp [inicializarFila, hps])
  rw [hc0, List.nil_append] at hct1
  have hsz1' : f1.size = (QUEUE_CAPACITY : Int) := by
    rw [hsz1, hps]; simp [inicializarFila]
  obtain ⟨f2, h2, hI2, hsz2, hhd2, -, hct2⟩ := desenfileirar_ok k f1 out hI1 (by
    rw [hsz1']; exact_mod_cast hk)
  rw [hct1] at h2 hct2
  obtain ⟨f3, h3, hI3, hsz3, hhd3, hct3⟩ := enfileirar_ok qs f2 hI2 (by
    rw [hsz2, hsz1', hqs]; omega)
  have hfull : f3.size = (QUEUE_CAPACITY : Int) := by
    rw [hsz3, hsz2, hsz1', hqs]; omega
  rw [hct2] at hct3
  refine ⟨f1, f2, f3, h1, h2, h3, hfull, ?_, hct3, ?_⟩
  · rw [hhd3, hhd2, hhd1]
    simp only [inicializarFila, QUEUE_CAPACITY]
    omega
  · rw [← hct3]
    exact mostrarFila_ok f3 hI3 (by rw [hfull]; simp [QUEUE_CAPACITY])

/-! ## Session: the id counter and the generated pieces -/

theorem cInt_eq_some {x y : Int} (h : cInt x = some y) : y = x := by
  unfold cInt at h
  split_ifs at h
  exact (Option.some.inj h).symm

theorem gerarEInserir_ids (s s1 : Sessao) (p : Peca) (h : gerarEInserir s = some (p, s1))
    (hs : IdsEmOrdem s) :
    IdsEmOrdem s1 ∧ s1.geradas.length = s.geradas.length + 1 := by
  simp only [gerarEInserir, Option.bind_eq_some, Option.some.injEq, Prod.mk.injEq] at h
  obtain ⟨prox, hprox, e, -, -, rfl⟩ := h
  have hp := cInt_eq_some hprox
  obtain ⟨h1, h2⟩ := hs
  refine ⟨⟨?_, ?_⟩, by simp⟩
  · simp only [List.length_append, List.length_singleton, hp, h1]; push_cast; ring
  · simp only [List.length_append, List.length_singleton, List.map_append, List.range_succ, h2,
      List.map_cons, List.map_nil, gerarPeca, h1]

theorem preencher_ids (k : Nat) :
    ∀ s s1, preencher k s = some s1 → IdsEmOrdem s →
      IdsEmOrdem s1 ∧ s1.geradas.length = s.geradas.length + k := by
  induction k with
  | zero =>
    intro s s1 h hs
    simp only [preencher, Option.some.injEq] at h
    subst h; exact ⟨hs, rfl⟩
  | succ k ih =>
    intro s s1 h hs
    simp only [preencher, Option.bind_eq_some] at h
    obtain ⟨⟨p, s2⟩, h2, h3⟩ := h
    obtain ⟨hi2, hl2⟩ := gerarEInserir_ids s s2 p h2 hs
    obtain ⟨hi3, hl3⟩ := ih s2 s1 h3 hi2
    exact ⟨hi3, by rw [hl3, hl2]; ring⟩

/-- What a dispatch can do to the counter and to the generated pieces:
nothing, or one `gerarPeca(proximoId++)`. -/
theorem despachar_geradas (removida : Peca) (opc : Int) (s s1 : Sessao) (b : Bool)
    (h : despachar removida opc s = some (b, s1)) :
    (s1.proximoId = s.proximoId ∧ s1.geradas = s.geradas) ∨
    ∃ p s2, gerarEInserir s = some (p, s2) ∧ s1.proximoId = s2.proximoId ∧
      s1.geradas = s2.geradas := by
  unfold despachar at h
  split_ifs at h
  · simp only [Option.some.injEq, Prod.mk.injEq] at h
    obtain ⟨-, rfl⟩ := h; left; exact ⟨rfl, rfl⟩
  · simp only [Option.bind_eq_some, Option.some.injEq, Prod.mk.injEq] at h
    obtain ⟨d, -, m, -, -, rfl⟩ := h
    left; split_ifs <;> exact ⟨rfl, rfl⟩
  · simp only [Option.bind_eq_some, Option.some.injEq, Prod.mk.injEq] at h
    obtain ⟨m, -, -, rfl⟩ := h
    left; exact ⟨rfl, rfl⟩
  · simp only [Option.bind_eq_some, Option.some.injEq, Prod.mk.injEq] at h
    obtain ⟨⟨p, s2⟩, h2, m, -, -, rfl⟩ := h
    right; exact ⟨p, s2, h2, rfl, rfl⟩
  · simp only [Option.some.injEq, Prod.mk.injEq] at h
    obtain ⟨-, rfl⟩ := h; left; exact ⟨rfl, rfl⟩
  · simp only [Option.some.injEq, Prod.mk.injEq] at h
    obtain ⟨-, rfl⟩ := h; left; exact ⟨rfl, rfl⟩

theorem iteracao_ids (removida : Peca) (s s1 : Sessao) (b : Bool)
    (h : iteracao removida s = some (b, s1)) (hs : IdsEmOrdem s) :
    IdsEmOrdem s1 ∧ s.geradas.length ≤ s1.geradas.length := by
  simp only [iteracao, Option.bind_eq_some] at h
  obtain ⟨r, -, hd⟩ := h
  rcases despachar_geradas removida r.1 _ s1 b hd with ⟨h1, h2⟩ | ⟨p, s2, h2, h3, h4⟩
  · refine ⟨?_, by rw [h2]; exact le_refl _⟩
    unfold IdsEmOrdem at *
    rw [h1, h2]; exact hs
  · obtain ⟨hi, hl⟩ := gerarEInserir_ids { imprimir s menu with stdin := r.2 } s2 p h2 hs
    refine ⟨?_, by rw [h4, hl]; exact Nat.le_succ _⟩
    unfold IdsEmOrdem at *
    rw [h3, h4]; exact hi

theorem laco_ids (removida : Peca) (n : Nat) :
    ∀ (s s1 : Sessao) (b : Bool), laco removida n s = some (b, s1) → IdsEmOrdem s →
      IdsEmOrdem s1 ∧ s.geradas.length ≤ s1.geradas.length := by
  induction n with
  | zero =>
    intro s s1 b h hs
    simp only [laco, Option.some.injEq, Prod.mk.injEq] at h
    obtain ⟨-, rfl⟩ := h; exact ⟨hs, le_refl _⟩
  | succ n ih =>
    intro s s1 b h hs
    simp only [laco, Option.bind_eq_some] at h
    obtain ⟨⟨b2, s2⟩, h2, h3⟩ := h
    obtain ⟨hi2, hl2⟩ := iteracao_ids removida s s2 b2 h2 hs
    cases b2 with
    | true =>
      obtain ⟨hi3, hl3⟩ := ih s2 s1 b (by simpa using h3) hi2
      exact ⟨hi3, le_trans hl2 hl3⟩
    | false =>
      simp only [Bool.false_eq_true, if_false, Option.some.injEq, Prod.mk.injEq] at h3
      obtain ⟨-, rfl⟩ := h3
      exact ⟨hi2, hl2⟩

theorem main_ids (fila0 : FilaPecas) (removida : Peca) (stdin : List Char) (rng : Nat → Nat)
    (n : Nat) (b : Bool) (s : Sessao) (h : main fila0 removida stdin rng n = some (b, s)) :
    IdsEmOrdem s ∧ QUEUE_CAPACITY ≤ s.geradas.length := by
  simp only [main, iniciar, Option.bind_eq_some] at h
  obtain ⟨s1, ⟨s0, h0, m, -, hs1⟩, hl⟩ := h
  obtain ⟨hi0, hl0⟩ := preencher_ids _ _ s0 h0 (by simp [IdsEmOrdem])
  simp only [Option.some.injEq] at hs1
  subst hs1
  obtain ⟨hi1, hl1⟩ := laco_ids removida n (imprimir (imprimir s0 _) m) s b hl hi0
  refine ⟨hi1, le_trans ?_ hl1⟩
  simp only [imprimir]
  rw [hl0]; simp

theorem chain_consecutivos (n : Nat) :
    List.Chain' (fun x y : Int => x < y ∧ y = x + 1)
      ((List.range n).map fun (i : Nat) => (i : Int) + 1) := by
  rw [List.chain'_iff_get]
  intro i hi
  simp only [List.get_eq_getElem, List.getElem_map, List.getElem_range]
  constructor
  · push_cast; omega
  · push_cast; ring

/-- C8. Id monotonicity: in every state a session reaches (any input, any
outcomes of `rand`, any number of loop iterations, the counter not having
overflowed), the pieces generated so far carry, in generation order, the ids
1, 2, 3, ...: the first has id 1 and each later one has an id greater by
exactly one than the piece generated before it. -/
theorem ids_monotonos (fila0 : FilaPecas) (removida : Peca) (stdin : List Char)
    (rng : Nat → Nat) (n : Nat) (b : Bool) (s : Sessao)
    (h : main fila0 removida stdin rng n = some (b, s)) :
    (s.geradas.map Peca.id).head? = some 1 ∧
    List.Chain' (fun x y : Int => x < y ∧ y = x + 1) (s.geradas.map Peca.id) ∧
    s.geradas.map Peca.id = (List.range s.geradas.length).map fun (i : Nat) => (i : Int) + 1 := by
  obtain ⟨⟨-, h2⟩, hl⟩ := main_ids fila0 removida stdin rng n b s h
  refine ⟨?_, ?_, h2⟩
  · rw [h2]
    obtain ⟨m, hm⟩ : ∃ m, s.geradas.length = m + 1 :=
      ⟨s.geradas.length - 1, by simp only [QUEUE_CAPACITY] at hl; omega⟩
    rw [hm, List.range_succ_eq_map]
    simp
  · rw [h2]; exact chain_consecutivos _

/-! ## Session: the steps under the invariant -/

theorem gerarEInserir_ok (s : Sessao) (hI : Inv s.fila)
    (hs : s.fila.size < (QUEUE_CAPACITY : Int)) (h1 : 0 ≤ s.proximoId)
    (h2 : s.proximoId < INT_MAX) :
    ∃ p s1, gerarEInserir s = some (p, s1) ∧ p.id = s.proximoId ∧ Inv s1.fila ∧
      s1.fila.size = s.fila.size + 1 ∧ s1.fila.head = s.fila.head ∧
      conteudo s1.fila = conteudo s.fila ++ [p] ∧
      s1.proximoId = s.proximoId + 1 ∧ s1.stdin = s.stdin ∧ s1.stdout = s.stdout ∧
      s1.geradas = s.geradas ++ [p] := by
  have e1 : cInt (s.proximoId + 1) = some (s.proximoId + 1) :=
    cInt_of_bounds (by simp only [INT_MIN]; omega) (by simp only [INT_MAX] at *; omega)
  refine ⟨(gerarPeca s.rng s.proximoId).1,
    { s with
      fila := { s.fila with
        buffer := Function.update s.fila.buffer (slotLogico s.fila s.fila.size.toNat)
          (gerarPeca s.rng s.proximoId).1,
        size := s.fila.size + 1 },
      proximoId := s.proximoId + 1, rng := (gerarPeca s.rng s.proximoId).2,
      geradas := s.geradas ++ [(gerarPeca s.rng s.proximoId).1] }, ?_, rfl,
    inv_apos_enqueue s.fila _ (gerarPeca s.rng s.proximoId).1 hI hs, rfl, rfl,
    conteudo_enqueue s.fila _ hI hs, rfl, rfl, rfl, rfl⟩
  simp only [gerarEInserir, e1, Option.some_bind, enqueue_ok s.fila _ hI hs]

theorem preencher_ok (k : Nat) :
    ∀ s : Sessao, Inv s.fila → s.fila.size + k ≤ (QUEUE_CAPACITY : Int) → 0 ≤ s.proximoId →
      s.proximoId + k ≤ INT_MAX →
      ∃ s1, preencher k s = some s1 ∧ Inv s1.fila ∧ s1.fila.size = s.fila.size + k ∧
        s1.fila.head = s.fila.head ∧
        idsFila s1 = idsFila s ++ (List.range k).map (fun (i : Nat) => s.proximoId + i) ∧
        s1.proximoId = s.proximoId + k ∧ s1.stdin = s.stdin ∧ s1.stdout = s.stdout := by
  induction k with
  | zero =>
    intro s hI _ _ _
    exact ⟨s, rfl, hI, by simp, rfl, by simp, by simp, rfl, rfl⟩
  | succ k ih =>
    intro s hI hs h1 h2
    simp only [Nat.cast_add, Nat.cast_one] at hs h2
    obtain ⟨p, s1, hg, hid, hI1, hsz1, hhd1, hct1, hpx1, hin1, hout1, -⟩ :=
      gerarEInserir_ok s hI (by omega) h1 (by omega)
    obtain ⟨s2, hp2, hI2, hsz2, hhd2, hids2, hpx2, hin2, hout2⟩ :=
      ih s1 hI1 (by rw [hsz1]; omega) (by rw [hpx1]; omega) (by rw [hpx1]; omega)
    refine ⟨s2, ?_, hI2, ?_, by rw [hhd2, hhd1], ?_, ?_, by rw [hin2, hin1],
      by rw [hout2, hout1]⟩
    · simp only [preencher, hg, Option.some_bind, hp2]
    · rw [hsz2, hsz1]; push_cast; ring
    · rw [hids2]
      simp only [idsFila, hct1, List.map_append, List.map_cons, List.map_nil, hid, hpx1,
        List.range_succ_eq_map, List.map_map, List.append_assoc, List.singleton_append,
        Nat.cast_zero, add_zero]
      congr 2
      apply List.map_congr_left
      intro i _
      simp only [Function.comp, Nat.cast_succ]
      ring
    · rw [hpx2, hpx1]; push_cast; ring

theorem mostrarFila_definida (fila : FilaPecas) (hI : Inv fila) :
    ∃ m, mostrarFila fila = some m := by
  by_cases hs : 0 < fila.size
  · exact ⟨_, mostrarFila_ok fila hI hs⟩
  · exact ⟨_, mostrarFila_vazia fila (le_antisymm (not_lt.1 hs) hI.1)⟩

/-- Start-up: `main` reaches the menu loop with the queue full of the pieces
with ids 1..5, `head` 0, the counter at 6 and no input read. -/
theorem iniciar_ok (fila0 : FilaPecas) (stdin : List Char) (rng : Nat → Nat) :
    ∃ s, iniciar fila0 stdin rng = some s ∧ Inv s.fila ∧
      s.fila.size = (QUEUE_CAPACITY : Int) ∧ s.fila.head = 0 ∧
      idsFila s = [1, 2, 3, 4, 5] ∧ s.proximoId = 6 ∧ s.stdin = stdin := by
  obtain ⟨s1, hp, hI, hsz, hhd, hids, hpx, hin, -⟩ := preencher_ok QUEUE_CAPACITY
    { fila := inicializarFila fila0, proximoId := 1, stdin := stdin, rng := rng,
      stdout := [], geradas := [] }
    (inv_inicializar fila0) (by simp [inicializarFila]) (by simp)
    (by simp [INT_MAX, QUEUE_CAPACITY])
  obtain ⟨m, hm⟩ := mostrarFila_definida s1.fila hI
  refine ⟨imprimir (imprimir s1 ["Tetris Stack - Simulador da fila de peças\n",
    "Fila inicializada com " ++ toString QUEUE_CAPACITY ++ " peças.\n"]) m,
    ?_, hI, ?_, hhd, ?_, ?_, hin⟩
  · simp only [iniciar, hp, Option.some_bind, imprimir, hm]
  · show s1.fila.size = _
    rw [hsz]; simp [inicializarFila]
  · show idsFila s1 = _
    rw [hids]; simp [idsFila, conteudo, inicializarFila, QUEUE_CAPACITY, List.range_succ]
  · show s1.proximoId = _
    rw [hpx]; simp [QUEUE_CAPACITY]

theorem iteracao_eq (removida : Peca) (s : Sessao) (opc : Int) (resto : List Char)
    (hler : lerOpcao s.stdin = some (opc, resto)) :
    iteracao removida s = despachar removida opc { imprimir s menu with stdin := resto } := by
  unfold iteracao
  show ((lerOpcao s.stdin).bind _) = _
  rw [hler]
  rfl

theorem passo_jogar (removida : Peca) (s : Sessao) (resto : List Char)
    (hler : lerOpcao s.stdin = some (1, resto)) (hI : Inv s.fila) (hpos : 0 < s.fila.size) :
    ∃ s1 p m, iteracao removida s = some (true, s1) ∧ Inv s1.fila ∧
      conteudo s.fila = p :: conteudo s1.fila ∧ s1.fila.size = s.fila.size - 1 ∧
      s1.proximoId = s.proximoId ∧ s1.stdin = resto ∧ s1.geradas = s.geradas ∧
      mostrarFila s1.fila = some m ∧
      s1.stdout = s.stdout ++ menu ++ [msgJogada p] ++ m := by
  have hI1 := inv_apos_dequeue s.fila hI hpos
  obtain ⟨m, hm⟩ := mostrarFila_definida _ hI1
  refine ⟨{ s with
      fila := { s.fila with head := (s.fila.head + 1) % 5, size := s.fila.size - 1 },
      stdin := resto,
      stdout := s.stdout ++ menu ++ [msgJogada (s.fila.buffer (slotLogico s.fila 0))] ++ m },
    s.fila.buffer (slotLogico s.fila 0), m, ?_, hI1, conteudo_dequeue s.fila hI hpos,
    rfl, rfl, rfl, rfl, hm, rfl⟩
  simp [iteracao, imprimir, hler, despachar, dequeue_ok s.fila removida hI hpos, hm]

theorem passo_jogar_vazia (removida : Peca) (s : Sessao) (resto : List Char)
    (hler : lerOpcao s.stdin = some (1, resto)) (hz : s.fila.size = 0) :
    ∃ s1, iteracao removida s = some (true, s1) ∧ s1.fila = s.fila ∧
      s1.proximoId = s.proximoId ∧ s1.stdin = resto ∧ s1.geradas = s.geradas ∧
      s1.stdout = s.stdout ++ menu ++ [msgFilaVazia] ++ [tituloFila, "  [vazia]\n\n"] := by
  refine ⟨{ s with
      stdin := resto,
      stdout := s.stdout ++ menu ++ [msgFilaVazia] ++ [tituloFila, "  [vazia]\n\n"] },
    ?_, rfl, rfl, rfl, rfl, rfl⟩
  simp [iteracao, imprimir, hler, despachar, dequeue_vazia s.fila removida hz,
    mostrarFila_vazia s.fila hz]

theorem passo_inserir (removida : Peca) (s : Sessao) (resto : List Char)
    (hler : lerOpcao s.stdin = some (2, resto)) (hI : Inv s.fila)
    (hs : s.fila.size < (QUEUE_CAPACITY : Int)) (h1 : 0 ≤ s.proximoId)
    (h2 : s.proximoId < INT_MAX) :
    ∃ s1 p m, iteracao removida s = some (true, s1) ∧ Inv s1.fila ∧
      conteudo s1.fila = conteudo s.fila ++ [p] ∧ p.id = s.proximoId ∧
      s1.fila.size = s.fila.size + 1 ∧ s1.proximoId = s.proximoId + 1 ∧ s1.stdin = resto ∧
      s1.geradas = s.geradas ++ [p] ∧ mostrarFila s1.fila = some m ∧
      s1.stdout = s.stdout ++ menu ++ [msgInserida p] ++ m := by
  obtain ⟨p, s1, hg, hid, hI1, hsz, -, hct, hpx, -, hout, hger⟩ :=
    gerarEInserir_ok { imprimir s menu with stdin := resto } hI hs h1 h2
  obtain ⟨m, hm⟩ := mostrarFila_definida _ hI1
  have hne : filaCheia s.fila = false := by
    simp only [filaCheia, beq_eq_false_iff_ne, ne_eq]; omega
  refine ⟨imprimir (imprimir s1 [msgInserida p]) m, p, m, ?_, hI1, hct, hid, hsz, hpx, ?_,
    hger, hm, ?_⟩
  · rw [iteracao_eq removida s 2 resto hler]
    unfold despachar
    rw [if_neg (by decide), if_neg (by decide), if_pos rfl, if_neg (by simp [imprimir, hne]), hg]
    simp only [Option.some_bind, imprimir, hm]
  · simp only [gerarEInserir, Option.bind_eq_some, Option.some.injEq, Prod.mk.injEq] at hg
    obtain ⟨_, _, _, _, _, rfl⟩ := hg
    rfl
  · simp only [imprimir, hout, List.append_assoc]

theorem passo_inserir_cheia (removida : Peca) (s : Sessao) (resto : List Char)
    (hler : lerOpcao s.stdin = some (2, resto)) (hI : Inv s.fila)
    (hs : s.fila.size = (QUEUE_CAPACITY : Int)) :
    ∃ s1 m, iteracao removida s = some (true, s1) ∧ s1.fila = s.fila ∧
      s1.proximoId = s.proximoId ∧ s1.stdin = resto ∧ s1.geradas = s.geradas ∧
      mostrarFila s.fila = some m ∧ s1.stdout = s.stdout ++ menu ++ [msgFilaCheia] ++ m := by
  obtain ⟨m, hm⟩ := mostrarFila_definida _ hI
  have hc : filaCheia s.fila = true := by simp [filaCheia, hs]
  refine ⟨{ s with
      stdin := resto,
      stdout := s.stdout ++ menu ++ [msgFilaCheia] ++ m }, m,
    ?_, rfl, rfl, rfl, rfl, hm, rfl⟩
  rw [iteracao_eq removida s 2 resto hler]
  unfold despachar
  rw [if_neg (by decide), if_neg (by decide), if_pos rfl, if_pos (by simp [imprimir, hc])]
  simp only [imprimir, hm, Option.some_bind, List.append_assoc]

theorem passo_invalido (removida : Peca) (s : Sessao) (opc : Int) (resto : List Char)
    (hler : lerOpcao s.stdin = some (opc, resto)) (h1 : opc ≠ 1) (h2 : opc ≠ 2)
    (h3 : opc ≠ 3) :
    iteracao removida s = some (true,
      { s with stdin := resto,
               stdout := s.stdout ++ menu ++
                 [if opc = -1 then msgEntradaInvalida else msgOpcaoInvalida] }) := by
  by_cases hm : opc = -1
  · simp [iteracao, imprimir, hler, despachar, hm]
  · simp [iteracao, imprimir, hler, despachar, hm, h1, h2, h3]

theorem laco_mais_um (removida : Peca) (n : Nat) :
    ∀ (s s1 s2 : Sessao) (b : Bool), laco removida n s = some (true, s1) →
      iteracao removida s1 = some (b, s2) → laco removida (n + 1) s = some (b, s2) := by
  induction n with
  | zero =>
    intro s s1 s2 b h hi
    simp only [laco, Option.some.injEq, Prod.mk.injEq, true_and] at h
    subst h
    cases b <;> simp [laco, hi]
  | succ n ih =>
    intro s s1 s2 b h hi
    rw [laco] at h ⊢
    simp only [Option.bind_eq_some] at h
    obtain ⟨⟨b3, s3⟩, h3, h4⟩ := h
    cases b3 with
    | true =>
      simp only [if_true] at h4
      simp only [h3, Option.some_bind, if_true]
      exact ih s3 s1 s2 b h4 hi
    | false => simp at h4

theorem main_mais_um (fila0 : FilaPecas) (removida : Peca) (stdin : List Char)
    (rng : Nat → Nat) (n : Nat) (s1 s2 : Sessao) (b : Bool)
    (h : main fila0 removida stdin rng n = some (true, s1))
    (hi : iteracao removida s1 = some (b, s2)) :
    main fila0 removida stdin rng (n + 1) = some (b, s2) := by
  simp only [main, Option.bind_eq_some] at h ⊢
  obtain ⟨s0, h0, hl⟩ := h
  exact ⟨s0, h0, laco_mais_um removida n s0 s1 s2 b hl hi⟩

/-! ## Session: the reference scenario and invalid input -/

theorem size_pos_of_ids (s : Sessao) (k : Int) (ks : List Int) (hI : Inv s.fila)
    (h : idsFila s = k :: ks) : 0 < s.fila.size ∧ s.fila.size = (ks.length : Int) + 1 := by
  have hl : (idsFila s).length = s.fila.size.toNat := by simp [idsFila, conteudo_length]
  rw [h, List.length_cons] at hl
  have := hI.1
  omega

/-- One more iteration with choice 1 on a queue whose ids are `k :: ks`. -/
theorem cenario_jogar (fila0 : FilaPecas) (removida : Peca) (stdin : List Char)
    (rng : Nat → Nat) (n : Nat) (s : Sessao) (k : Int) (ks : List Int) (resto : List Char)
    (h : main fila0 removida stdin rng n = some (true, s)) (hI : Inv s.fila)
    (hids : idsFila s = k :: ks) (hler : lerOpcao s.stdin = some (1, resto)) :
    ∃ s1, main fila0 removida stdin rng (n + 1) = some (true, s1) ∧ jogou s s1 k ∧
      Inv s1.fila ∧ idsFila s1 = ks ∧ s1.fila.size = (ks.length : Int) ∧
      s1.proximoId = s.proximoId ∧ s1.stdin = resto := by
  obtain ⟨hpos, hsz⟩ := size_pos_of_ids s k ks hI hids
  obtain ⟨s1, p, m, hit, hI1, hct, hsz1, hpx, hin, -, -, hout⟩ :=
    passo_jogar removida s resto hler hI hpos
  have hcons : p.id :: idsFila s1 = k :: ks := by
    rw [← hids]; simp only [idsFila, hct, List.map_cons]
  obtain ⟨hk, hks⟩ := List.cons.inj hcons
  exact ⟨s1, main_mais_um fila0 removida stdin rng n s s1 true h hit, ⟨p, m, hk, hct, hout⟩,
    hI1, hks, by rw [hsz1, hsz]; ring, hpx, hin⟩

/-- C9. The reference scenario (QUEUE_CAPACITY = 5), for every outcome of
`rand`: at start-up the queue holds ids 1..5 and is full; choice 1 removes id 1
and leaves ids 2..5, size 4; choice 2 generates id 6 and leaves ids 2..6, size
5, full; a second choice 2 is rejected with the queue-full report and leaves
queue and counter as they were; five choices 1 remove ids 2, 3, 4, 5, 6 in
this order and leave the queue empty; one more choice 1 gives the queue-empty
report and leaves the queue empty. -/
theorem cenario_referencia (fila0 : FilaPecas) (removida : Peca) (rng : Nat → Nat) :
    ∃ s0 s1 s2 s3 s4 s5 s6 s7 s8 s9 : Sessao,
      main fila0 removida entradaCenario rng 0 = some (true, s0) ∧
        idsFila s0 = [1, 2, 3, 4, 5] ∧ filaCheia s0.fila = true ∧
      main fila0 removida entradaCenario rng 1 = some (true, s1) ∧ jogou s0 s1 1 ∧
        idsFila s1 = [2, 3, 4, 5] ∧ s1.fila.size = 4 ∧
      main fila0 removida entradaCenario rng 2 = some (true, s2) ∧ inseriu s1 s2 6 ∧
        idsFila s2 = [2, 3, 4, 5, 6] ∧ s2.fila.size = 5 ∧ filaCheia s2.fila = true ∧
        s2.proximoId = 7 ∧
      main fila0 removida entradaCenario rng 3 = some (true, s3) ∧
        s3.fila = s2.fila ∧ s3.proximoId = s2.proximoId ∧ s3.geradas = s2.geradas ∧
        (∃ m, s3.stdout = s2.stdout ++ menu ++ [msgFilaCheia] ++ m) ∧
      main fila0 removida entradaCenario rng 4 = some (true, s4) ∧ jogou s3 s4 2 ∧
      main fila0 removida entradaCenario rng 5 = some (true, s5) ∧ jogou s4 s5 3 ∧
      main fila0 removida entradaCenario rng 6 = some (true, s6) ∧ jogou s5 s6 4 ∧
      main fila0 removida entradaCenario rng 7 = some (true, s7) ∧ jogou s6 s7 5 ∧
      main fila0 removida entradaCenario rng 8 = some (true, s8) ∧ jogou s7 s8 6 ∧
        idsFila s8 = [] ∧ s8.fila.size = 0 ∧ filaVazia s8.fila = true ∧
      main fila0 removida entradaCenario rng 9 = some (true, s9) ∧
        s9.fila = s8.fila ∧
        s9.stdout = s8.stdout ++ menu ++ [msgFilaVazia] ++ [tituloFila, "  [vazia]\n\n"] := by
  -- start-up
  obtain ⟨s0, h0, hI0, hsz0, -, hids0, hpx0, hin0⟩ := iniciar_ok fila0 entradaCenario rng
  have hm0 : main fila0 removida entradaCenario rng 0 = some (true, s0) := by
    simp [main, h0, laco]
  -- choice 1
  obtain ⟨s1, hm1, hj1, hI1, hids1, hsz1, hpx1, hin1⟩ :=
    cenario_jogar fila0 removida entradaCenario rng 0 s0 1 [2, 3, 4, 5]
      "2\n2\n1\n1\n1\n1\n1\n1\n".toList hm0 hI0 hids0 (by rw [hin0]; decide)
  -- choice 2, accepted
  obtain ⟨s2, p2, m2, hit2, hI2, hct2, hid2, hsz2, hpx2, hin2, hger2, -, hout2⟩ :=
    passo_inserir removida s1 "2\n1\n1\n1\n1\n1\n1\n".toList (by rw [hin1]; decide) hI1
      (by rw [hsz1]; decide) (by rw [hpx1, hpx0]; decide) (by rw [hpx1, hpx0]; decide)
  have hm2 := main_mais_um fila0 removida entradaCenario rng 1 s1 s2 true hm1 hit2
  rw [hpx1, hpx0] at hid2 hpx2
  have hids2 : idsFila s2 = [2, 3, 4, 5, 6] := by
    simp only [idsFila, hct2, List.map_append, List.map_cons, List.map_nil, hid2]
    rw [show List.map Peca.id (conteudo s1.fila) = idsFila s1 from rfl, hids1]
    rfl
  have hsz2 : s2.fila.size = 5 := by rw [hsz2, hsz1]; rfl
  -- choice 2, rejected
  obtain ⟨s3, m3, hit3, hf3, hpx3, hin3, hger3, -, hout3⟩ :=
    passo_inserir_cheia removida s2 "1\n1\n1\n1\n1\n1\n".toList (by rw [hin2]; decide) hI2
      (by rw [hsz2]; rfl)
  have hm3 := main_mais_um fila0 removida entradaCenario rng 2 s2 s3 true hm2 hit3
  -- five times choice 1
  obtain ⟨s4, hm4, hj4, hI4, hids4, -, -, hin4⟩ :=
    cenario_jogar fila0 removida entradaCenario rng 3 s3 2 [3, 4, 5, 6]
      "1\n1\n1\n1\n1\n".toList hm3 (by rw [hf3]; exact hI2)
      (by simp only [idsFila, hf3]; exact hids2) (by rw [hin3]; decide)
  obtain ⟨s5, hm5, hj5, hI5, hids5, -, -, hin5⟩ :=
    cenario_jogar fila0 removida entradaCenario rng 4 s4 3 [4, 5, 6]
      "1\n1\n1\n1\n".toList hm4 hI4 hids4 (by rw [hin4]; decide)
  obtain ⟨s6, hm6, hj6, hI6, hids6, -, -, hin6⟩ :=
    cenario_jogar fila0 removida entradaCenario rng 5 s5 4 [5, 6]
      "1\n1\n1\n".toList hm5 hI5 hids5 (by rw [hin5]; decide)
  obtain ⟨s7, hm7, hj7, hI7, hids7, -, -, hin7⟩ :=
    cenario_jogar fila0 removida entradaCenario rng 6 s6 5 [6]
      "1\n1\n".toList hm6 hI6 hids6 (by rw [hin6]; decide)
  obtain ⟨s8, hm8, hj8, hI8, hids8, hsz8, -, hin8⟩ :=
    cenario_jogar fila0 removida entradaCenario rng 7 s7 6 []
      "1\n".toList hm7 hI7 hids7 (by rw [hin7]; decide)
  have hsz8 : s8.fila.size = 0 := by rw [hsz8]; rfl
  -- choice 1 on the empty queue
  obtain ⟨s9, hit9, hf9, -, -, -, hout9⟩ :=
    passo_jogar_vazia removida s8 [] (by rw [hin8]; decide) hsz8
  have hm9 := main_mais_um fila0 removida entradaCenario rng 8 s8 s9 true hm8 hit9
  exact ⟨s0, s1, s2, s3, s4, s5, s6, s7, s8, s9, hm0, hids0,
    by simp [filaCheia, hsz0], hm1, hj1, hids1, by rw [hsz1]; rfl, hm2,
    ⟨p2, m2, hid2, hct2, hger2, hout2⟩, hids2, hsz2, by simp [filaCheia, hsz2, QUEUE_CAPACITY],
    by rw [hpx2]; rfl, hm3, hf3, hpx3, hger3, ⟨m3, hout3⟩, hm4, hj4, hm5, hj5, hm6, hj6, hm7, hj7, hm8, hj8,
    hids8, hsz8, by simp [filaVazia, hsz8], hm9, hf9, hout9⟩

/-- C10. Invalid menu input changes nothing: when `lerOpcao` yields a value
other than 1, 2 and 3 (-1 for a line that does not parse, for an empty line
and at end of input; any other integer), the loop iteration leaves the queue
(buffer, head, size), the counter `proximoId`, the generated pieces and the
random source as they were, only prints the menu and one report, and the loop
goes on. -/
theorem entrada_invalida_preserva (removida : Peca) (s : Sessao) (opc : Int)
    (resto : List Char) (hler : lerOpcao s.stdin = some (opc, resto)) (h1 : opc ≠ 1)
    (h2 : opc ≠ 2) (h3 : opc ≠ 3) :
    ∃ s1, iteracao removida s = some (true, s1) ∧
      s1.fila = s.fila ∧ s1.proximoId = s.proximoId ∧ s1.geradas = s.geradas ∧
      s1.rng = s.rng ∧ s1.stdin = resto ∧
      s1.stdout = s.stdout ++ menu ++
        [if opc = -1 then msgEntradaInvalida else msgOpcaoInvalida] :=
  ⟨_, passo_invalido removida s opc resto hler h1 h2 h3, rfl, rfl, rfl, rfl, rfl, rfl⟩

/-! ## Helper lemmas: the text of a table row -/

theorem digitChar_valor (k : Nat) (hk : k < 10) :
    isdigit (Nat.digitChar k) = true ∧ (Nat.digitChar k).toNat - '0'.toNat = k := by
  interval_cases k <;> decide

theorem toDigitsCore_valor (fuel : Nat) :
    ∀ (n : Nat) (ds : List Char), n < fuel →
      List.foldl (fun acc d => 10 * acc + (d.toNat - '0'.toNat)) 0 (Nat.toDigitsCore 10 fuel n ds)
        = List.foldl (fun acc d => 10 * acc + (d.toNat - '0'.toNat)) n ds := by
  induction fuel with
  | zero => intro n ds h; omega
  | succ fuel ih =>
    intro n ds h
    have hd := (digitChar_valor (n % 10) (Nat.mod_lt _ (by decide))).2
    simp only [Nat.toDigitsCore]
    split_ifs with h0
    · simp only [List.foldl_cons, hd]
      congr 1
      omega
    · rw [ih (n / 10) _ (by omega)]
      simp only [List.foldl_cons, hd]
      congr 1
      omega

theorem toDigitsCore_digitos (fuel : Nat) :
    ∀ (n : Nat) (ds : List Char), (∀ c ∈ ds, isdigit c = true) →
      ∀ c ∈ Nat.toDigitsCore 10 fuel n ds, isdigit c = true := by
  induction fuel with
  | zero => intro n ds h; simpa [Nat.toDigitsCore] using h
  | succ fuel ih =>
    intro n ds h
    have hd := (digitChar_valor (n % 10) (Nat.mod_lt _ (by decide))).1
    have hcons : ∀ c ∈ Nat.digitChar (n % 10) :: ds, isdigit c = true := by
      intro c hc
      rcases List.mem_cons.1 hc with rfl | hc
      · exact hd
      · exact h c hc
    simp only [Nat.toDigitsCore]
    split_ifs with h0
    · exact hcons
    · exact ih _ _ hcons

theorem toDigitsCore_nao_vazio (fuel : Nat) :
    ∀ (n : Nat) (ds : List Char), 0 < fuel → Nat.toDigitsCore 10 fuel n ds ≠ [] := by
  induction fuel with
  | zero => intro n ds h; omega
  | succ fuel ih =>
    intro n ds _
    simp only [Nat.toDigitsCore]
    split_ifs with h0
    · simp
    · cases fuel with
      | zero => simp [Nat.toDigitsCore]
      | succ f => exact ih _ _ (Nat.succ_pos f)

/-- The text `toString n` is a decimal numeral of `n`. -/
theorem decimal_nat (n : Nat) : Decimal (n : Int) (toString n).data := by
  left
  have hdata : (toString n).data = Nat.toDigits 10 n := rfl
  rw [hdata]
  refine ⟨Int.natCast_nonneg n, toDigitsCore_nao_vazio _ _ _ (Nat.succ_pos n),
    toDigitsCore_digitos _ _ _ (by simp), ?_⟩
  have := toDigitsCore_valor (n + 1) n [] (Nat.lt_succ_self n)
  simp only [List.foldl_nil] at this
  simp only [valorDecimal, Nat.toDigits, this]

/-- The text that `%d` prints for `x` is a decimal numeral of `x`. -/
theorem decimal_int (x : Int) : Decimal x (toString x).data := by
  cases x with
  | ofNat m => exact decimal_nat m
  | negSucc m =>
    right
    rcases decimal_nat (m + 1) with ⟨-, h2, h3, h4⟩ | ⟨h, -⟩
    · refine ⟨Int.negSucc_lt_zero m, (toString (m + 1)).data, rfl, h2, h3, ?_⟩
      rw [h4, Int.neg_negSucc]
    · exact absurd h (by omega)

/-- A table row shows its position, the kind and the id in the layout of
`printf("  %5d   %4c  %4d\n", ...)`. -/
theorem linhaTabela_mostra (i : Int) (p : Peca) :
    MostraLinha (linhaTabela i p) i p.nome p.id := by
  refine ⟨(toString i).data, (toString p.id).data, decimal_int i, decimal_int p.id, ?_⟩
  simp only [linhaTabela, padEsq, String.data_append, String.length]
  rfl

/-! ## Rendering, start-up, generator and predicates -/

/-- C11. Rendering uses logical order: on a queue that satisfies the
invariant, `mostrarFila` prints, after the title line, the single line
`[vazia]` and no table when `size == 0`; when `size > 0` it prints the table
header and exactly `size` rows, row `i` showing `i` with the kind and id of
the piece in slot `(head + i) mod QUEUE_CAPACITY`, which is the `i`-th piece
that successive dequeues return: the text of the row is the decimal numeral
of `i`, the kind character and the decimal numeral of the id, right-justified
in columns of 5, 4 and 4 characters. The embedding of `mostrarFila` (its argument
is a pointer to `const`) yields only the lines printed; the branch of `main`
that only prints and calls it leaves the queue as it was. -/
theorem mostrarFila_ordem_logica (fila : FilaPecas) (hI : Inv fila) :
    tituloFila = "\nEstado atual da fila (capacidade 5):\n" ∧
    (fila.size = 0 → mostrarFila fila = some [tituloFila, "  [vazia]\n\n"]) ∧
    (0 < fila.size →
      ∃ linhas : List String,
        mostrarFila fila = some ([tituloFila, "  Índice  Tipo  ID\n"] ++ linhas ++ ["\n"]) ∧
        linhas.length = fila.size.toNat ∧
        (∀ (i : Nat) (h : i < linhas.length) (j : Fin QUEUE_CAPACITY),
          ((j : Nat) : Int) = (fila.head + i) % (QUEUE_CAPACITY : Int) →
            linhas.get ⟨i, h⟩ = linhaTabela i (fila.buffer j) ∧
            MostraLinha (linhas.get ⟨i, h⟩) i (fila.buffer j).nome (fila.buffer j).id) ∧
        linhas = tabela (conteudo fila) ∧
        ∀ out : Peca, ∃ fila1,
          desenfileirar fila.size.toNat fila out = some (conteudo fila, fila1)) ∧
    (∀ (removida : Peca) (s : Sessao) (r : Bool × Sessao), s.fila = fila →
      filaCheia fila = true → despachar removida 2 s = some r → r.2.fila = fila) := by
  refine ⟨by decide, mostrarFila_vazia fila, ?_, ?_⟩
  · intro hs
    have hlen : (tabela (conteudo fila)).length = fila.size.toNat := by
      simp [tabela, conteudo]
    refine ⟨tabela (conteudo fila), mostrarFila_ok fila hI hs, hlen, ?_, rfl, ?_⟩
    · intro i h j hj
      have hi : i < fila.size.toNat := by rw [← hlen]; exact h
      have hj2 : j = slotLogico fila i := by
        obtain ⟨h1, h2, h3, h4⟩ := hI
        apply Fin.ext
        simp only [slotLogico, QUEUE_CAPACITY, Nat.cast_ofNat] at *
        omega
      have hrow : (tabela (conteudo fila)).get ⟨i, h⟩ = linhaTabela i (fila.buffer j) := by
        simp [tabela, conteudo, hj2]
      exact ⟨hrow, by rw [hrow]; exact linhaTabela_mostra i (fila.buffer j)⟩
    · intro out
      obtain ⟨f1, h1, -⟩ := desenfileirar_ok fila.size.toNat fila out hI (by
        have := hI.1; omega)
      refine ⟨f1, ?_⟩
      rw [h1, ← conteudo_length, List.take_length]
  · intro removida s r hs hc hr
    subst hs
    unfold despachar at hr
    rw [if_neg (by decide), if_neg (by decide), if_pos rfl, if_pos hc] at hr
    simp only [Option.bind_eq_some, Option.some.injEq] at hr
    obtain ⟨m, -, rfl⟩ := hr
    rfl

/-- C12. Pre-fill postcondition: for every outcome of `rand` (and whatever
the uninitialized locals hold), `main` enters the menu loop with the queue
full (`size == QUEUE_CAPACITY`, `head == 0`), the queued ids front to back
1, 2, ..., QUEUE_CAPACITY, the counter `proximoId` at `QUEUE_CAPACITY + 1`
and no input read. -/
theorem preenchimento_inicial (fila0 : FilaPecas) (removida : Peca) (stdin : List Char)
    (rng : Nat → Nat) :
    ∃ s, iniciar fila0 stdin rng = some s ∧
      main fila0 removida stdin rng 0 = some (true, s) ∧
      s.fila.size = (QUEUE_CAPACITY : Int) ∧ s.fila.head = 0 ∧ filaCheia s.fila = true ∧
      idsFila s = (List.range QUEUE_CAPACITY).map (fun (i : Nat) => (i : Int) + 1) ∧
      idsFila s = [1, 2, 3, 4, 5] ∧
      s.proximoId = (QUEUE_CAPACITY : Int) + 1 ∧ s.stdin = stdin := by
  obtain ⟨s, h, -, hsz, hhd, hids, hpx, hin⟩ := iniciar_ok fila0 stdin rng
  refine ⟨s, h, by simp [main, h, laco], hsz, hhd, by simp [filaCheia, hsz], ?_, hids, ?_, hin⟩
  · rw [hids]; simp [QUEUE_CAPACITY, List.range_succ]
  · rw [hpx]; simp [QUEUE_CAPACITY]

/-- C15. Piece generation: for every id and every random source,
`gerarPeca(id)` makes one call of `rand`, returns a piece with the given id
and with kind `tipos[r mod 4]` for the value `r` of that call, an index inside
the table, so the kind is one of I, O, T, L; and each of the four kinds is
produced for some `r`. -/
theorem gerarPeca_valida :
    (∀ (rng : Nat → Nat) (id : Int),
      (gerarPeca rng id).1.id = id ∧
      rng 0 % 4 < tipos.length ∧
      tipos.get? (rng 0 % 4) = some (gerarPeca rng id).1.nome ∧
      ((gerarPeca rng id).1.nome = 'I' ∨ (gerarPeca rng id).1.nome = 'O' ∨
        (gerarPeca rng id).1.nome = 'T' ∨ (gerarPeca rng id).1.nome = 'L') ∧
      (gerarPeca rng id).2 = fun n => rng (n + 1)) ∧
    (∀ id : Int,
      (gerarPeca (fun _ => 0) id).1.nome = 'I' ∧ (gerarPeca (fun _ => 1) id).1.nome = 'O' ∧
      (gerarPeca (fun _ => 2) id).1.nome = 'T' ∧ (gerarPeca (fun _ => 3) id).1.nome = 'L') := by
  refine ⟨?_, fun id => ⟨rfl, rfl, rfl, rfl⟩⟩
  intro rng id
  have hlt : rng 0 % 4 < 4 := Nat.mod_lt _ (by decide)
  have key : ∀ k : Fin tipos.length, tipos.get? k.1 = some (tipos.get k) ∧
      (tipos.get k = 'I' ∨ tipos.get k = 'O' ∨ tipos.get k = 'T' ∨ tipos.get k = 'L') := by
    decide
  exact ⟨rfl, hlt, (key ⟨rng 0 % tipos.length, Nat.mod_lt _ (by decide)⟩).1,
    (key ⟨rng 0 % tipos.length, Nat.mod_lt _ (by decide)⟩).2, rfl⟩

/-- C16. Full/empty predicates agree with `size`: for every queue `filaVazia`
is true exactly when `size == 0` and `filaCheia` exactly when
`size == QUEUE_CAPACITY`, so no queue is both; whenever `enqueue` returns, it
returns true exactly when `filaCheia` is false, and whenever `dequeue` returns,
it returns true exactly when `filaVazia` is false; under the invariant both
always return. -/
theorem predicados_coerentes (fila : FilaPecas) (p out : Peca) :
    (filaVazia fila = true ↔ fila.size = 0) ∧
    (filaCheia fila = true ↔ fila.size = (QUEUE_CAPACITY : Int)) ∧
    ¬ (filaVazia fila = true ∧ filaCheia fila = true) ∧
    (∀ b fila1, enqueue fila p = some (b, fila1) → (b = true ↔ filaCheia fila = false)) ∧
    (∀ b fila1 out1, dequeue fila out = some (b, fila1, out1) →
      (b = true ↔ filaVazia fila = false)) ∧
    (Inv fila → ∃ fila1, enqueue fila p = some (!filaCheia fila, fila1)) ∧
    (Inv fila → ∃ fila1 out1, dequeue fila out = some (!filaVazia fila, fila1, out1)) := by
  have hv : filaVazia fila = true ↔ fila.size = 0 := by simp [filaVazia]
  have hc : filaCheia fila = true ↔ fila.size = (QUEUE_CAPACITY : Int) := by simp [filaCheia]
  refine ⟨hv, hc, ?_, ?_, ?_, ?_, ?_⟩
  · rintro ⟨h1, h2⟩
    rw [hv] at h1; rw [hc] at h2
    rw [h1] at h2
    simp [QUEUE_CAPACITY] at h2
  · intro b fila1 h
    unfold enqueue at h
    by_cases hf : filaCheia fila = true
    · rw [if_pos hf] at h
      simp only [Option.some.injEq, Prod.mk.injEq] at h
      rw [← h.1, hf]; simp
    · rw [if_neg hf] at h
      simp only [Option.bind_eq_some, Option.some.injEq, Prod.mk.injEq] at h
      obtain ⟨_, _, _, _, _, _, hb, _⟩ := h
      rw [← hb]; simpa using hf
  · intro b fila1 out1 h
    unfold dequeue at h
    by_cases hf : filaVazia fila = true
    · rw [if_pos hf] at h
      simp only [Option.some.injEq, Prod.mk.injEq] at h
      rw [← h.1, hf]; simp
    · rw [if_neg hf] at h
      simp only [Option.bind_eq_some, Option.some.injEq, Prod.mk.injEq] at h
      obtain ⟨_, _, _, _, _, _, hb, _⟩ := h
      rw [← hb]; simpa using hf
  · intro hI
    by_cases hs : fila.size < (QUEUE_CAPACITY : Int)
    · have hf : filaCheia fila = false := by
        simp only [filaCheia, beq_eq_false_iff_ne, ne_eq]; omega
      rw [hf]
      exact ⟨_, enqueue_ok fila p hI hs⟩
    · have h : fila.size = (QUEUE_CAPACITY : Int) := le_antisymm hI.2.1 (not_lt.1 hs)
      rw [hc.2 h]
      exact ⟨fila, enqueue_cheia fila p h⟩
  · intro hI
    by_cases hs : 0 < fila.size
    · have hf : filaVazia fila = false := by
        simp only [filaVazia, beq_eq_false_iff_ne, ne_eq]; omega
      rw [hf]
      exact ⟨_, _, dequeue_ok fila out hI hs⟩
    · have h : fila.size = 0 := le_antisymm (not_lt.1 hs) hI.1
      rw [hv.2 h]
      exact ⟨fila, out, dequeue_vazia fila out h⟩

/-! ## End of input, the choice -1 and the vacated slot -/

theorem lerOpcao_fim : lerOpcao [] = some (-1, []) := by
  decide

theorem iteracao_fim (removida : Peca) (s : Sessao) (hfim : s.stdin = []) :
    iteracao removida s = some (true,
      { s with stdout := s.stdout ++ menu ++ [msgEntradaInvalida] }) := by
  have h := passo_invalido removida s (-1) [] (by rw [hfim]; exact lerOpcao_fim)
    (by decide) (by decide) (by decide)
  rw [h, ← hfim]
  simp

theorem laco_fim (removida : Peca) (n : Nat) :
    ∀ s : Sessao, s.stdin = [] →
      ∃ s1, laco removida n s = some (true, s1) ∧ s1.fila = s.fila ∧
        s1.proximoId = s.proximoId ∧ s1.geradas = s.geradas ∧ s1.stdin = [] := by
  induction n with
  | zero => intro s hs; exact ⟨s, rfl, rfl, rfl, rfl, hs⟩
  | succ n ih =>
    intro s hs
    obtain ⟨s1, h1, hf, hp, hg, hi⟩ :=
      ih { s with stdout := s.stdout ++ menu ++ [msgEntradaInvalida] } hs
    refine ⟨s1, ?_, hf, hp, hg, hi⟩
    simp only [laco, iteracao_fim removida s hs, Option.some_bind, if_true]
    exact h1

/-- The loop is left only by choice 3. -/
theorem sai_so_com_3 (removida : Peca) (s s1 : Sessao)
    (h : iteracao removida s = some (false, s1)) :
    ∃ resto, lerOpcao s.stdin = some (3, resto) := by
  simp only [iteracao, Option.bind_eq_some] at h
  obtain ⟨⟨opc, resto⟩, hl, hd⟩ := h
  refine ⟨resto, ?_⟩
  have hopc : opc = 3 := by
    unfold despachar at hd
    split_ifs at hd with h1 h2 h3 h4 h5
    · simp at hd
    · simp only [Option.bind_eq_some, Option.some.injEq, Prod.mk.injEq] at hd
      obtain ⟨_, _, _, _, hb, _⟩ := hd
      simp at hb
    · simp only [Option.bind_eq_some, Option.some.injEq, Prod.mk.injEq] at hd
      obtain ⟨_, _, hb, _⟩ := hd
      simp at hb
    · simp only [Option.bind_eq_some, Option.some.injEq, Prod.mk.injEq] at hd
      obtain ⟨_, _, _, _, hb, _⟩ := hd
      simp at hb
    · exact h5
    · simp at hd
  rw [← hopc]
  exact hl

/-- C13 fails on the code: on an exhausted input the iteration reports invalid
input and the loop goes on; after 40 iterations it is still running. -/
theorem fim_de_entrada_contraexemplo :
    (iteracao pecaEx (sessaoEx [])).map (fun r => (r.1, r.2.stdin, r.2.stdout))
      = some (true, [], menu ++ [msgEntradaInvalida]) ∧
    (main filaEx pecaEx [] (fun n => n) 40).map (fun r => r.1) = some true := by
  constructor
  · rfl
  · rfl

/-- C13, amended. End of input does not end the session: when the input is
exhausted `lerOpcao` returns -1 as for a malformed line, the iteration prints
the invalid-input report, changes neither the queue nor the counter and the
loop goes on, so after every number of iterations the session is still
running in the same state; the loop is left only when `lerOpcao` yields 3. -/
theorem fim_de_entrada (removida : Peca) (s : Sessao) (hfim : s.stdin = []) :
    lerOpcao s.stdin = some (-1, []) ∧
    iteracao removida s = some (true,
      { s with stdout := s.stdout ++ menu ++ [msgEntradaInvalida] }) ∧
    (∀ n : Nat, ∃ s1, laco removida n s = some (true, s1) ∧ s1.fila = s.fila ∧
      s1.proximoId = s.proximoId ∧ s1.geradas = s.geradas ∧ s1.stdin = []) ∧
    (∀ (fila0 : FilaPecas) (rng : Nat → Nat) (n : Nat),
      ∃ s1, main fila0 removida [] rng n = some (true, s1)) ∧
    (∀ s2 s3 : Sessao, iteracao removida s2 = some (false, s3) →
      ∃ resto, lerOpcao s2.stdin = some (3, resto)) := by
  refine ⟨by rw [hfim]; exact lerOpcao_fim, iteracao_fim removida s hfim,
    fun n => laco_fim removida n s hfim, ?_, sai_so_com_3 removida⟩
  intro fila0 rng n
  obtain ⟨s0, h0, -, -, -, -, -, hin⟩ := iniciar_ok fila0 [] rng
  obtain ⟨s1, h1, -⟩ := laco_fim removida n s0 hin
  exact ⟨s1, by simp [main, h0, h1]⟩

/-- C14 fails on the code at the line `-1`: the integer -1 is parsed, it is
outside {1,2,3}, and the iteration prints the invalid-input report, not the
invalid-option report. Every parsed integer outside {1,2,3} other than -1 does
get the invalid-option report. -/
theorem menos_um_entrada_invalida :
    sscanf_d "-1\n".toList = some (some (-1)) ∧
    lerOpcao "-1\n".toList = some (-1, []) ∧
    (iteracao pecaEx (sessaoEx "-1\n".toList)).map (fun r => (r.1, r.2.stdout))
      = some (true, menu ++ [msgEntradaInvalida]) ∧
    msgEntradaInvalida ≠ msgOpcaoInvalida ∧
    (∀ (removida : Peca) (s : Sessao) (n : Int) (resto : List Char),
      lerOpcao s.stdin = some (n, resto) → n ≠ 1 → n ≠ 2 → n ≠ 3 → n ≠ -1 →
        iteracao removida s = some (true,
          { s with stdin := resto, stdout := s.stdout ++ menu ++ [msgOpcaoInvalida] })) := by
  refine ⟨by decide, by decide, rfl, by decide, ?_⟩
  intro removida s n resto hl h1 h2 h3 h4
  rw [passo_invalido removida s n resto hl h1 h2 h3, if_neg h4]

/-- C19 fails at the two-piece queue `filaEx` (front in slot 3): after a
dequeue, the enqueue of `pecaEx` stores it in slot 0, and slot 3 still holds
the dequeued piece. -/
theorem slot_vago_contraexemplo :
    ((dequeue filaEx pecaEx).bind fun d =>
      (enqueue d.2.1 pecaEx).map fun e => (d.1, e.1, d.2.2, e.2.buffer ⟨3, by decide⟩, e.2.buffer ⟨0, by decide⟩))
      = some (true, true, bufferEx ⟨3, by decide⟩, bufferEx ⟨3, by decide⟩, pecaEx) ∧
    bufferEx ⟨3, by decide⟩ ≠ pecaEx := by
  decide

/-- C19, amended. On a queue that satisfies the invariant and is not empty,
after a successful dequeue the slot at the old head index still holds the
dequeued piece, and the next `enqueue(p)` succeeds and stores `p` in slot
`(old head + old size) mod QUEUE_CAPACITY`: this is the vacated slot exactly
when the queue was full before the dequeue; otherwise the vacated slot keeps
the dequeued piece. -/
theorem slot_vago (fila : FilaPecas) (out p : Peca) (hI : Inv fila) (hs : 0 < fila.size) :
    ∃ fila1 out1 fila2, dequeue fila out = some (true, fila1, out1) ∧
      enqueue fila1 p = some (true, fila2) ∧
      (∀ j : Fin QUEUE_CAPACITY,
        ((j : Nat) : Int) = (fila.head + fila.size) % (QUEUE_CAPACITY : Int) →
          fila2.buffer j = p) ∧
      (∀ j : Fin QUEUE_CAPACITY, ((j : Nat) : Int) = fila.head →
        fila1.buffer j = out1 ∧
        (fila.size = (QUEUE_CAPACITY : Int) → fila2.buffer j = p) ∧
        (fila.size < (QUEUE_CAPACITY : Int) → fila2.buffer j = out1)) := by
  have hI1 := inv_apos_dequeue fila hI hs
  have hlt : (fila.size - 1 : Int) < (QUEUE_CAPACITY : Int) := by
    have := hI.2.1; omega
  have he := enqueue_ok _ p hI1 hlt
  obtain ⟨h1, h2, h3, h4⟩ := hI
  simp only [QUEUE_CAPACITY, Nat.cast_ofNat] at h1 h2 h3 h4 hs
  refine ⟨_, _, _, dequeue_ok fila out ⟨h1, h2, h3, h4⟩ hs, he, ?_, ?_⟩
  · intro j hj
    have : j = slotLogico { fila with head := (fila.head + 1) % 5, size := fila.size - 1 }
        (fila.size - 1).toNat := by
      apply Fin.ext
      simp only [slotLogico, QUEUE_CAPACITY, Nat.cast_ofNat] at *
      omega
    simp only []
    rw [this]
    exact Function.update_same _ _ _
  · intro j hj
    have hj0 : j = slotLogico fila 0 := by
      apply Fin.ext
      simp only [slotLogico, QUEUE_CAPACITY] at *
      omega
    refine ⟨by rw [hj0], ?_, ?_⟩
    · intro hfull
      have : j = slotLogico { fila with head := (fila.head + 1) % 5, size := fila.size - 1 }
          (fila.size - 1).toNat := by
        apply Fin.ext
        simp only [slotLogico, QUEUE_CAPACITY, Nat.cast_ofNat] at *
        omega
      simp only []
      rw [this]
      exact Function.update_same _ _ _
    · intro hnf
      have : j ≠ slotLogico { fila with head := (fila.head + 1) % 5, size := fila.size - 1 }
          (fila.size - 1).toNat := by
        intro hc
        have := congrArg Fin.val hc
        simp only [slotLogico, QUEUE_CAPACITY, Nat.cast_ofNat] at *
        omega
      simp only []
      rw [Function.update_noteq this, hj0]

/-! ## Session: what one iteration does, and the reachable states -/

theorem passo_sair (removida : Peca) (s : Sessao) (resto : List Char)
    (hler : lerOpcao s.stdin = some (3, resto)) :
    iteracao removida s = some (false,
      { s with stdin := resto, stdout := s.stdout ++ menu ++ [msgSaindo] }) := by
  simp [iteracao, imprimir, hler, despachar]

theorem lerOpcao_de_iteracao (removida : Peca) (s s1 : Sessao) (b : Bool)
    (h : iteracao removida s = some (b, s1)) :
    ∃ opc resto, lerOpcao s.stdin = some (opc, resto) := by
  simp only [iteracao, Option.bind_eq_some] at h
  obtain ⟨⟨opc, resto⟩, hl, -⟩ := h
  exact ⟨opc, resto, hl⟩

/-- An accepted insert that returns did not overflow the counter. -/
theorem contador_sem_overflow (removida : Peca) (s s1 : Sessao) (b : Bool) (resto : List Char)
    (h : iteracao removida s = some (b, s1)) (hler : lerOpcao s.stdin = some (2, resto))
    (hne : filaCheia s.fila = false) : s.proximoId < INT_MAX := by
  by_contra hc
  have hn : cInt (s.proximoId + 1) = none := by
    simp only [cInt, INT_MAX, INT_MIN] at *
    rw [if_neg (by omega)]
  rw [iteracao_eq removida s 2 resto hler] at h
  unfold despachar at h
  rw [if_neg (by decide), if_neg (by decide), if_pos rfl, if_neg (by simp [imprimir, hne])] at h
  simp [gerarEInserir, imprimir, hn] at h

/-- The three things an iteration that returns can do to queue and counter:
remove the front piece, append a generated piece, or nothing. -/
theorem iteracao_casos (removida : Peca) (s s1 : Sessao) (b : Bool)
    (h : iteracao removida s = some (b, s1)) (hI : Inv s.fila) (hp : 0 ≤ s.proximoId) :
    (insercaoAceita s = false ∧ 0 < s.fila.size ∧ Inv s1.fila ∧
      (∃ p, conteudo s.fila = p :: conteudo s1.fila) ∧ s1.fila.size = s.fila.size - 1 ∧
      s1.proximoId = s.proximoId ∧ s1.geradas = s.geradas ∧
      ∃ resto, lerOpcao s.stdin = some (1, resto)) ∨
    (insercaoAceita s = true ∧ Inv s1.fila ∧
      (∃ p, p.id = s.proximoId ∧ conteudo s1.fila = conteudo s.fila ++ [p] ∧
        s1.geradas = s.geradas ++ [p]) ∧
      s1.fila.size = s.fila.size + 1 ∧ s1.proximoId = s.proximoId + 1) ∨
    (insercaoAceita s = false ∧ s1.fila = s.fila ∧ s1.proximoId = s.proximoId ∧
      s1.geradas = s.geradas ∧
      ¬ (0 < s.fila.size ∧ ∃ resto, lerOpcao s.stdin = some (1, resto))) := by
  obtain ⟨opc, resto, hler⟩ := lerOpcao_de_iteracao removida s s1 b h
  by_cases h1 : opc = 1
  · subst h1
    have hna : insercaoAceita s = false := by simp [insercaoAceita, hler]
    by_cases hpos : 0 < s.fila.size
    · obtain ⟨t, p, m, ht, hIt, hct, hsz, hpx, -, hg, -, -⟩ :=
        passo_jogar removida s resto hler hI hpos
      rw [ht] at h
      simp only [Option.some.injEq, Prod.mk.injEq] at h
      obtain ⟨-, rfl⟩ := h
      exact Or.inl ⟨hna, hpos, hIt, ⟨p, hct⟩, hsz, hpx, hg, resto, hler⟩
    · have hz : s.fila.size = 0 := le_antisymm (not_lt.1 hpos) hI.1
      obtain ⟨t, ht, hf, hpx, -, hg, -⟩ := passo_jogar_vazia removida s resto hler hz
      rw [ht] at h
      simp only [Option.some.injEq, Prod.mk.injEq] at h
      obtain ⟨-, rfl⟩ := h
      exact Or.inr (Or.inr ⟨hna, hf, hpx, hg, fun hc => hpos hc.1⟩)
  · have hn1 : ¬ (0 < s.fila.size ∧ ∃ r, lerOpcao s.stdin = some (1, r)) := by
      rintro ⟨-, r, hr⟩
      rw [hler] at hr
      simp only [Option.some.injEq, Prod.mk.injEq] at hr
      exact h1 hr.1
    by_cases h2 : opc = 2
    · subst h2
      by_cases hc : filaCheia s.fila = true
      · have hna : insercaoAceita s = false := by simp [insercaoAceita, hc]
        have hsz : s.fila.size = (QUEUE_CAPACITY : Int) := by simpa [filaCheia] using hc
        obtain ⟨t, m, ht, hf, hpx, -, hg, -, -⟩ :=
          passo_inserir_cheia removida s resto hler hI hsz
        rw [ht] at h
        simp only [Option.some.injEq, Prod.mk.injEq] at h
        obtain ⟨-, rfl⟩ := h
        exact Or.inr (Or.inr ⟨hna, hf, hpx, hg, hn1⟩)
      · have hne : filaCheia s.fila = false := by simpa using hc
        have hya : insercaoAceita s = true := by simp [insercaoAceita, hler, hne]
        have hlt : s.fila.size < (QUEUE_CAPACITY : Int) := by
          have h2 := hI.2.1
          have h3 : s.fila.size ≠ (QUEUE_CAPACITY : Int) := by simpa [filaCheia] using hne
          omega
        obtain ⟨t, p, m, ht, hIt, hct, hid, hsz, hpx, -, hg, -, -⟩ :=
          passo_inserir removida s resto hler hI hlt hp
            (contador_sem_overflow removida s s1 b resto h hler hne)
        rw [ht] at h
        simp only [Option.some.injEq, Prod.mk.injEq] at h
        obtain ⟨-, rfl⟩ := h
        exact Or.inr (Or.inl ⟨hya, hIt, ⟨p, hid, hct, hg⟩, hsz, hpx⟩)
    · have hna : insercaoAceita s = false := by simp [insercaoAceita, hler, h2]
      by_cases h3 : opc = 3
      · subst h3
        rw [passo_sair removida s resto hler] at h
        simp only [Option.some.injEq, Prod.mk.injEq] at h
        obtain ⟨-, rfl⟩ := h
        exact Or.inr (Or.inr ⟨hna, rfl, rfl, rfl, hn1⟩)
      · rw [passo_invalido removida s opc resto hler h1 h2 h3] at h
        simp only [Option.some.injEq, Prod.mk.injEq] at h
        obtain ⟨-, rfl⟩ := h
        exact Or.inr (Or.inr ⟨hna, rfl, rfl, rfl, hn1⟩)

theorem corrida_cons (P S : Int) (hS : 0 < S) :
    (List.range S.toNat).map (fun (i : Nat) => P - S + i)
      = (P - S) :: (List.range (S - 1).toNat).map (fun (i : Nat) => P - (S - 1) + i) := by
  obtain ⟨n, hn⟩ : ∃ n : Nat, S.toNat = n + 1 := ⟨S.toNat - 1, by omega⟩
  have hn1 : (S - 1).toNat = n := by omega
  rw [hn, hn1, List.range_succ_eq_map]
  simp only [List.map_cons, List.map_map, Nat.cast_zero, add_zero]
  congr 1
  apply List.map_congr_left
  intro i _
  simp only [Function.comp, Nat.cast_succ]
  ring

theorem corrida_snoc (P S : Int) (hS : 0 ≤ S) :
    (List.range (S + 1).toNat).map (fun (i : Nat) => P + 1 - (S + 1) + i)
      = (List.range S.toNat).map (fun (i : Nat) => P - S + i) ++ [P] := by
  have hn : (S + 1).toNat = S.toNat + 1 := by omega
  rw [hn, List.range_succ, List.map_append]
  congr 1
  · apply List.map_congr_left
    intro i _
    ring
  · simp only [List.map_cons, List.map_nil, Int.toNat_of_nonneg hS]
    congr 1
    ring

theorem iteracao_sinv (removida : Peca) (s s1 : Sessao) (b : Bool)
    (h : iteracao removida s = some (b, s1)) (hs : SessaoInv s) :
    SessaoInv s1 ∧ s1.proximoId = s.proximoId + (if insercaoAceita s then 1 else 0) := by
  obtain ⟨hI, hp, hids⟩ := hs
  rcases iteracao_casos removida s s1 b h hI (by omega) with
    ⟨hna, hpos, hI1, ⟨p, hct⟩, hsz, hpx, -, -⟩ | ⟨hya, hI1, ⟨p, hid, hct, -⟩, hsz, hpx⟩ |
    ⟨hna, hf, hpx, -, -⟩
  · refine ⟨⟨hI1, by rw [hpx]; exact hp, ?_⟩, by rw [hpx, hna]; simp⟩
    have h1 : p.id :: idsFila s1 = corrida s := by
      rw [← hids]; simp only [idsFila, hct, List.map_cons]
    have h2 := corrida_cons s.proximoId s.fila.size hpos
    simp only [corrida] at h1 ⊢
    rw [h2] at h1
    rw [hsz, hpx]
    exact (List.cons.inj h1).2
  · refine ⟨⟨hI1, by rw [hpx]; omega, ?_⟩, by rw [hpx, hya]; simp⟩
    have h2 := corrida_snoc s.proximoId s.fila.size hI.1
    simp only [corrida, hsz, hpx, h2]
    simp only [idsFila, hct, List.map_append, List.map_cons, List.map_nil, hid]
    rw [show List.map Peca.id (conteudo s.fila) = idsFila s from rfl, hids]
    rfl
  · refine ⟨⟨by rw [hf]; exact hI, by rw [hpx]; exact hp, ?_⟩, by rw [hpx, hna]; simp⟩
    simp only [idsFila, corrida, hf, hpx]
    exact hids

theorem laco_sinv (removida : Peca) (n : Nat) :
    ∀ (s s1 : Sessao) (b : Bool), laco removida n s = some (b, s1) → SessaoInv s →
      SessaoInv s1 ∧ s1.proximoId = s.proximoId + (aceitas removida n s : Nat) := by
  induction n with
  | zero =>
    intro s s1 b h hs
    simp only [laco, Option.some.injEq, Prod.mk.injEq] at h
    obtain ⟨-, rfl⟩ := h
    exact ⟨hs, by simp [aceitas]⟩
  | succ n ih =>
    intro s s1 b h hs
    simp only [laco, Option.bind_eq_some] at h
    obtain ⟨⟨b2, s2⟩, h2, h3⟩ := h
    obtain ⟨hi2, hp2⟩ := iteracao_sinv removida s s2 b2 h2 hs
    cases b2 with
    | true =>
      obtain ⟨hi3, hp3⟩ := ih s2 s1 b (by simpa using h3) hi2
      refine ⟨hi3, ?_⟩
      rw [hp3, hp2]
      simp only [aceitas, h2]
      split_ifs <;> push_cast <;> ring
    | false =>
      simp only [Bool.false_eq_true, if_false, Option.some.injEq, Prod.mk.injEq] at h3
      obtain ⟨-, rfl⟩ := h3
      refine ⟨hi2, ?_⟩
      rw [hp2]
      simp only [aceitas, h2]
      split_ifs <;> simp

theorem iniciar_sinv (fila0 : FilaPecas) (stdin : List Char) (rng : Nat → Nat) (s : Sessao)
    (h : iniciar fila0 stdin rng = some s) :
    SessaoInv s ∧ s.proximoId = 1 + (QUEUE_CAPACITY : Int) := by
  obtain ⟨s0, h0, hI, hsz, -, hids, hpx, -⟩ := iniciar_ok fila0 stdin rng
  rw [h0] at h
  simp only [Option.some.injEq] at h
  subst h
  refine ⟨⟨hI, by rw [hpx]; decide, ?_⟩, by rw [hpx]; rfl⟩
  rw [hids]
  simp [corrida, hsz, hpx, QUEUE_CAPACITY, List.range_succ]

theorem main_sinv (fila0 : FilaPecas) (removida : Peca) (stdin : List Char) (rng : Nat → Nat)
    (n : Nat) (b : Bool) (s : Sessao) (h : main fila0 removida stdin rng n = some (b, s)) :
    SessaoInv s ∧
    ∃ s0, iniciar fila0 stdin rng = some s0 ∧
      s.proximoId = 1 + (QUEUE_CAPACITY : Int) + (aceitas removida n s0 : Nat) := by
  simp only [main, Option.bind_eq_some] at h
  obtain ⟨s0, h0, hl⟩ := h
  obtain ⟨hi0, hp0⟩ := iniciar_sinv fila0 stdin rng s0 h0
  obtain ⟨hi, hp⟩ := laco_sinv removida n s0 s b hl hi0
  exact ⟨hi, s0, h0, by rw [hp, hp0]⟩

theorem corrida_pairwise (s : Sessao) : List.Pairwise (fun x y : Int => x < y) (corrida s) := by
  unfold corrida
  rw [List.pairwise_map]
  exact (List.pairwise_lt_range _).imp (fun h => by omega)

theorem preencher_inicial (fila0 : FilaPecas) (stdin : List Char) (rng : Nat → Nat) (k : Nat)
    (hk : k ≤ QUEUE_CAPACITY) :
    ∃ sk, preencher k (sessaoInicial fila0 stdin rng) = some sk ∧ Inv sk.fila ∧
      sk.fila.size = (k : Int) ∧ sk.proximoId = 1 + (k : Int) ∧ sk.geradas.length = k := by
  obtain ⟨sk, h, hI, hsz, -, -, hpx, -, -⟩ := preencher_ok k (sessaoInicial fila0 stdin rng)
    (inv_inicializar fila0) (by
      simp only [sessaoInicial, inicializarFila, QUEUE_CAPACITY] at *; omega)
    (by simp [sessaoInicial])
    (by simp only [sessaoInicial, INT_MAX, QUEUE_CAPACITY] at *; omega)
  obtain ⟨-, hl⟩ := preencher_ids k _ sk h (by simp [IdsEmOrdem, sessaoInicial])
  refine ⟨sk, h, hI, ?_, ?_, ?_⟩
  · rw [hsz]; simp [sessaoInicial, inicializarFila]
  · rw [hpx]; simp [sessaoInicial]
  · rw [hl]; simp [sessaoInicial]

/-- C17. The id counter advances exactly once per generated piece: it starts
at 1; after `k` pre-fill generations it is `1 + k`; an iteration of the menu
loop from a reachable state adds 1 when it is an accepted insert (choice 2 on
a queue that is not full) and leaves the counter as it was otherwise; hence in
every reachable state `proximoId` is `1 + QUEUE_CAPACITY` plus the number of
accepted inserts so far, and one more than the number of generated pieces. -/
theorem contador_avanca (fila0 : FilaPecas) (removida : Peca) (stdin : List Char)
    (rng : Nat → Nat) (n : Nat) (b : Bool) (s : Sessao)
    (h : main fila0 removida stdin rng n = some (b, s)) :
    (sessaoInicial fila0 stdin rng).proximoId = 1 ∧
    (∀ k : Nat, k ≤ QUEUE_CAPACITY →
      ∃ sk, preencher k (sessaoInicial fila0 stdin rng) = some sk ∧
        sk.proximoId = 1 + (k : Int) ∧ sk.geradas.length = k) ∧
    (∃ s0, iniciar fila0 stdin rng = some s0 ∧
      s.proximoId = 1 + (QUEUE_CAPACITY : Int) + (aceitas removida n s0 : Nat)) ∧
    s.proximoId = 1 + (s.geradas.length : Int) ∧
    (∀ (b1 : Bool) (s1 : Sessao), iteracao removida s = some (b1, s1) →
      s1.proximoId = s.proximoId + (if insercaoAceita s then 1 else 0)) := by
  obtain ⟨hinv, hcount⟩ := main_sinv fila0 removida stdin rng n b s h
  obtain ⟨⟨hid, -⟩, -⟩ := main_ids fila0 removida stdin rng n b s h
  refine ⟨rfl, ?_, hcount, by rw [hid]; ring, ?_⟩
  · intro k hk
    obtain ⟨sk, h1, -, -, h2, h3⟩ := preencher_inicial fila0 stdin rng k hk
    exact ⟨sk, h1, h2, h3⟩
  · intro b1 s1 h1
    exact (iteracao_sinv removida s s1 b1 h1 hinv).2

/-- C18. No generated piece is dropped: each of the `QUEUE_CAPACITY` calls of
`enqueue` in the pre-fill loop is made on a queue that is not full and returns
true; in every reachable state of the menu loop in which `filaCheia` is false,
`enqueue` returns true for every piece and puts it at the back of the queue;
so an iteration with choice 2 on such a state, when it returns, has generated
a piece with the next id, appended it to the queue and reported it. -/
theorem enqueue_de_main_aceita (fila0 : FilaPecas) (removida : Peca) (stdin : List Char)
    (rng : Nat → Nat) :
    (∀ i : Nat, i < QUEUE_CAPACITY →
      ∃ si, preencher i (sessaoInicial fila0 stdin rng) = some si ∧
        filaCheia si.fila = false ∧
        ∀ p : Peca, ∃ fila1, enqueue si.fila p = some (true, fila1) ∧
          conteudo fila1 = conteudo si.fila ++ [p]) ∧
    (∀ (n : Nat) (s : Sessao), main fila0 removida stdin rng n = some (true, s) →
      filaCheia s.fila = false →
      (∀ p : Peca, ∃ fila1, enqueue s.fila p = some (true, fila1) ∧
        conteudo fila1 = conteudo s.fila ++ [p]) ∧
      (∀ (resto : List Char) (b1 : Bool) (s1 : Sessao),
        lerOpcao s.stdin = some (2, resto) → iteracao removida s = some (b1, s1) →
          b1 = true ∧ inseriu s s1 s.proximoId)) := by
  constructor
  · intro i hi
    obtain ⟨si, h1, hI, hsz, -, -⟩ := preencher_inicial fila0 stdin rng i (le_of_lt hi)
    have hlt : si.fila.size < (QUEUE_CAPACITY : Int) := by rw [hsz]; exact_mod_cast hi
    refine ⟨si, h1, ?_, fun p => ⟨_, enqueue_ok si.fila p hI hlt, conteudo_enqueue si.fila p hI hlt⟩⟩
    simp only [filaCheia, beq_eq_false_iff_ne, ne_eq]; omega
  · intro n s h hne
    obtain ⟨⟨hI, hp, -⟩, -⟩ := main_sinv fila0 removida stdin rng n true s h
    have hlt : s.fila.size < (QUEUE_CAPACITY : Int) := by
      have h2 := hI.2.1
      have h3 : s.fila.size ≠ (QUEUE_CAPACITY : Int) := by simpa [filaCheia] using hne
      omega
    refine ⟨fun p => ⟨_, enqueue_ok s.fila p hI hlt, conteudo_enqueue s.fila p hI hlt⟩, ?_⟩
    intro resto b1 s1 hler hit
    obtain ⟨t, p, m, ht, -, hct, hid, -, -, -, hg, -, hout⟩ :=
      passo_inserir removida s resto hler hI hlt (by omega)
        (contador_sem_overflow removida s s1 b1 resto hit hler hne)
    rw [ht] at hit
    simp only [Option.some.injEq, Prod.mk.injEq] at hit
    obtain ⟨rfl, rfl⟩ := hit
    exact ⟨rfl, p, m, hid, hct, hg, hout⟩

/-- C20. Queued ids form a consecutive run ending just below the counter: in
every reachable session state the ids of the queued pieces, front to back,
are `proximoId - size, ..., proximoId - 1`; they are strictly increasing, so
pairwise distinct; and choice 1 on a non-empty queue removes the piece at the
front, whose id `proximoId - size` is the smallest in the queue. -/
theorem ids_consecutivos (fila0 : FilaPecas) (removida : Peca) (stdin : List Char)
    (rng : Nat → Nat) (n : Nat) (b : Bool) (s : Sessao)
    (h : main fila0 removida stdin rng n = some (b, s)) :
    idsFila s = (List.range s.fila.size.toNat).map
      (fun (i : Nat) => s.proximoId - s.fila.size + i) ∧
    List.Pairwise (fun x y : Int => x < y) (idsFila s) ∧
    (idsFila s).Nodup ∧
    (∀ x ∈ idsFila s, s.proximoId - s.fila.size ≤ x ∧ x ≤ s.proximoId - 1) ∧
    (∀ resto : List Char, lerOpcao s.stdin = some (1, resto) → 0 < s.fila.size →
      ∃ s1 p, iteracao removida s = some (true, s1) ∧
        conteudo s.fila = p :: conteudo s1.fila ∧ p.id = s.proximoId - s.fila.size ∧
        ∀ q ∈ conteudo s.fila, p.id ≤ q.id) := by
  obtain ⟨⟨hI, hp, hids⟩, -⟩ := main_sinv fila0 removida stdin rng n b s h
  have hpw : List.Pairwise (fun x y : Int => x < y) (idsFila s) := by
    rw [hids]; exact corrida_pairwise s
  have hbound : ∀ x ∈ idsFila s, s.proximoId - s.fila.size ≤ x ∧ x ≤ s.proximoId - 1 := by
    intro x hx
    rw [hids] at hx
    simp only [corrida, List.mem_map, List.mem_range] at hx
    obtain ⟨i, hi, rfl⟩ := hx
    have := hI.1
    omega
  refine ⟨hids, hpw, hpw.imp (fun h => ne_of_lt h), hbound, ?_⟩
  intro resto hler hpos
  obtain ⟨s1, p, m, hit, -, hct, -⟩ := passo_jogar removida s resto hler hI hpos
  have h1 : p.id :: idsFila s1 = corrida s := by
    rw [← hids]; simp only [idsFila, hct, List.map_cons]
  rw [show corrida s = _ from corrida_cons s.proximoId s.fila.size hpos] at h1
  have hpid : p.id = s.proximoId - s.fila.size := (List.cons.inj h1).1
  refine ⟨s1, p, hit, hct, hpid, ?_⟩
  intro q hq
  rw [hpid]
  exact (hbound q.id (List.mem_map_of_mem Peca.id hq)).1

/-! ## The theorems at concrete inputs -/

/-- C2 at the full queue `filaCheiaEx`. -/
theorem enqueue_cheia_rejeitado_witness :
    filaCheiaEx.size = (QUEUE_CAPACITY : Int) ∧
    enqueue filaCheiaEx pecaEx = some (false, filaCheiaEx) ∧
    ((enqueue filaCheiaEx pecaEx).bind fun r => enqueue r.2 pecaEx)
      = some (false, filaCheiaEx) :=
  ⟨by decide, enqueue_cheia_rejeitado filaCheiaEx pecaEx (by decide)⟩

/-- C3 at the empty queue `filaVaziaEx`. -/
theorem dequeue_vazia_rejeitado_witness :
    filaVaziaEx.size = 0 ∧
    dequeue filaVaziaEx pecaEx = some (false, filaVaziaEx, pecaEx) :=
  ⟨by decide, dequeue_vazia_rejeitado filaVaziaEx pecaEx (by decide)⟩

/-- C4 at the two-piece queue `filaEx`. -/
theorem enqueue_sucesso_witness :
    Inv filaEx ∧ filaEx.size < (QUEUE_CAPACITY : Int) ∧
    ∃ fila1, enqueue filaEx pecaEx = some (true, fila1) ∧
      (∀ j : Fin QUEUE_CAPACITY,
        ((j : Nat) : Int) = (filaEx.head + filaEx.size) % (QUEUE_CAPACITY : Int) →
          fila1.buffer j = pecaEx) ∧
      (∀ j : Fin QUEUE_CAPACITY,
        ((j : Nat) : Int) ≠ (filaEx.head + filaEx.size) % (QUEUE_CAPACITY : Int) →
          fila1.buffer j = filaEx.buffer j) ∧
      fila1.size = filaEx.size + 1 ∧
      fila1.head = filaEx.head ∧
      conteudo fila1 = conteudo filaEx ++ [pecaEx] :=
  ⟨by decide, by decide, enqueue_sucesso filaEx pecaEx (by decide) (by decide)⟩

/-- C5 at the two-piece queue `filaEx`. -/
theorem dequeue_sucesso_witness :
    Inv filaEx ∧ 0 < filaEx.size ∧
    ∃ fila1 out1, dequeue filaEx pecaEx = some (true, fila1, out1) ∧
      (∀ j : Fin QUEUE_CAPACITY, ((j : Nat) : Int) = filaEx.head → out1 = filaEx.buffer j) ∧
      fila1.head = (filaEx.head + 1) % (QUEUE_CAPACITY : Int) ∧
      fila1.size = filaEx.size - 1 ∧
      fila1.buffer = filaEx.buffer ∧
      conteudo filaEx = out1 :: conteudo fila1 ∧
      conteudo fila1 = (conteudo filaEx).tail :=
  ⟨by decide, by decide, dequeue_sucesso filaEx pecaEx (by decide) (by decide)⟩

/-- C6 at the two-piece queue `filaEx` and three pieces. -/
theorem fifo_ordem_witness :
    Inv filaEx ∧ filaEx.size ≤ (QUEUE_CAPACITY : Int) - 3 ∧
    ∃ fila3 fila4,
      enfileirar [pecaEx, { nome := 'O', id := 10 }, { nome := 'L', id := 11 }] filaEx
        = some fila3 ∧
      desenfileirar (filaEx.size.toNat + 3) fila3 pecaEx
        = some (conteudo filaEx ++ [pecaEx, { nome := 'O', id := 10 }, { nome := 'L', id := 11 }],
            fila4) ∧
      fila4.size = 0 ∧
      (filaEx.size = 0 → desenfileirar 3 fila3 pecaEx
        = some ([pecaEx, { nome := 'O', id := 10 }, { nome := 'L', id := 11 }], fila4)) :=
  ⟨by decide, by decide,
    fifo_ordem filaEx pecaEx { nome := 'O', id := 10 } { nome := 'L', id := 11 } pecaEx
      (by decide) (by decide)⟩

/-- C7 with `k = 3`, the pieces `pecasEx` and then `novasEx`. -/
theorem wraparound_witness :
    3 ≤ QUEUE_CAPACITY ∧ pecasEx.length = QUEUE_CAPACITY ∧ novasEx.length = 3 ∧
    ∃ fila1 fila2 fila3,
      enfileirar pecasEx (inicializarFila filaEx) = some fila1 ∧
      desenfileirar 3 fila1 pecaEx = some (pecasEx.take 3, fila2) ∧
      enfileirar novasEx fila2 = some fila3 ∧
      fila3.size = (QUEUE_CAPACITY : Int) ∧
      fila3.head = ((3 % QUEUE_CAPACITY : Nat) : Int) ∧
      conteudo fila3 = pecasEx.drop 3 ++ novasEx ∧
      mostrarFila fila3
        = some ([tituloFila, "  Índice  Tipo  ID\n"] ++
            tabela (pecasEx.drop 3 ++ novasEx) ++ ["\n"]) :=
  ⟨by decide, rfl, rfl, wraparound filaEx pecasEx novasEx 3 pecaEx (by decide) rfl rfl⟩

/-- C8 at the session that reads the choices 1 and 2. -/
theorem ids_monotonos_witness :
    main filaEx pecaEx "1\n2\n".toList (fun n => n) 2 = some (true, sessaoFinalEx) ∧
    sessaoFinalEx.geradas.map Peca.id = [1, 2, 3, 4, 5, 6] ∧
    (sessaoFinalEx.geradas.map Peca.id).head? = some 1 ∧
    List.Chain' (fun x y : Int => x < y ∧ y = x + 1) (sessaoFinalEx.geradas.map Peca.id) ∧
    sessaoFinalEx.geradas.map Peca.id
      = (List.range sessaoFinalEx.geradas.length).map fun (i : Nat) => (i : Int) + 1 :=
  ⟨rfl, by decide, ids_monotonos filaEx pecaEx "1\n2\n".toList (fun n => n) 2 true sessaoFinalEx rfl⟩

/-- C10 at the input lines `abc`, the empty line and `7`. -/
theorem entrada_invalida_preserva_witness :
    (lerOpcao (sessaoEx "abc\n".toList).stdin = some (-1, []) ∧
      ∃ s1, iteracao pecaEx (sessaoEx "abc\n".toList) = some (true, s1) ∧
        s1.fila = filaEx ∧ s1.proximoId = 8 ∧ s1.stdout = menu ++ [msgEntradaInvalida]) ∧
    (lerOpcao (sessaoEx "\n".toList).stdin = some (-1, []) ∧
      ∃ s1, iteracao pecaEx (sessaoEx "\n".toList) = some (true, s1) ∧
        s1.fila = filaEx ∧ s1.proximoId = 8 ∧ s1.stdout = menu ++ [msgEntradaInvalida]) ∧
    (lerOpcao (sessaoEx "7\n".toList).stdin = some (7, []) ∧
      ∃ s1, iteracao pecaEx (sessaoEx "7\n".toList) = some (true, s1) ∧
        s1.fila = filaEx ∧ s1.proximoId = 8 ∧ s1.stdout = menu ++ [msgOpcaoInvalida]) := by
  refine ⟨⟨by decide, ?_⟩, ⟨by decide, ?_⟩, ⟨by decide, ?_⟩⟩
  · obtain ⟨s1, h, hf, hp, -, -, -, ho⟩ :=
      entrada_invalida_preserva pecaEx (sessaoEx "abc\n".toList) (-1) [] (by decide)
        (by decide) (by decide) (by decide)
    exact ⟨s1, h, hf, hp, ho⟩
  · obtain ⟨s1, h, hf, hp, -, -, -, ho⟩ :=
      entrada_invalida_preserva pecaEx (sessaoEx "\n".toList) (-1) [] (by decide)
        (by decide) (by decide) (by decide)
    exact ⟨s1, h, hf, hp, ho⟩
  · obtain ⟨s1, h, hf, hp, -, -, -, ho⟩ :=
      entrada_invalida_preserva pecaEx (sessaoEx "7\n".toList) 7 [] (by decide)
        (by decide) (by decide) (by decide)
    exact ⟨s1, h, hf, hp, ho⟩

/-- C11 at the two-piece queue `filaEx`, whose front is slot 3 and whose
pieces have kind I and ids 3 and 4, and at the empty queue `filaVaziaEx`. -/
theorem mostrarFila_ordem_logica_witness :
    Inv filaEx ∧ 0 < filaEx.size ∧
    mostrarFila filaEx = some ["\nEstado atual da fila (capacidade 5):\n",
      "  Índice  Tipo  ID\n", "      0      I     3\n", "      1      I     4\n", "\n"] ∧
    Inv filaVaziaEx ∧ filaVaziaEx.size = 0 ∧
    mostrarFila filaVaziaEx = some ["\nEstado atual da fila (capacidade 5):\n",
      "  [vazia]\n\n"] := by
  refine ⟨by decide, by decide, ?_, by decide, by decide, ?_⟩
  · obtain ⟨linhas, hm, -, -, ht, -⟩ :=
      (mostrarFila_ordem_logica filaEx (by decide)).2.2.1 (by decide)
    rw [hm, ht]
    decide
  · rw [(mostrarFila_ordem_logica filaVaziaEx (by decide)).2.1 (by decide)]
    decide

/-- C13, amended, at a session whose input is exhausted. -/
theorem fim_de_entrada_witness :
    (sessaoEx []).stdin = [] ∧
    lerOpcao (sessaoEx []).stdin = some (-1, []) ∧
    ∃ s1, laco pecaEx 7 (sessaoEx []) = some (true, s1) ∧ s1.fila = filaEx ∧
      s1.proximoId = 8 ∧ s1.stdin = [] := by
  obtain ⟨h1, -, h3, -, -⟩ := fim_de_entrada pecaEx (sessaoEx []) rfl
  obtain ⟨s1, hl, hf, hp, -, hi⟩ := h3 7
  exact ⟨rfl, h1, s1, hl, hf, hp, hi⟩

/-- C17 at the session that reads the choices 1 and 2: six pieces were
generated and the counter is 7. -/
theorem contador_avanca_witness :
    main filaEx pecaEx "1\n2\n".toList (fun n => n) 2 = some (true, sessaoFinalEx) ∧
    sessaoFinalEx.geradas.length = 6 ∧
    sessaoFinalEx.proximoId = 1 + (sessaoFinalEx.geradas.length : Int) ∧
    ∃ s0, iniciar filaEx "1\n2\n".toList (fun n => n) = some s0 ∧
      sessaoFinalEx.proximoId = 1 + (QUEUE_CAPACITY : Int) + (aceitas pecaEx 2 s0 : Nat) := by
  obtain ⟨-, -, h3, h4, -⟩ :=
    contador_avanca filaEx pecaEx "1\n2\n".toList (fun n => n) 2 true sessaoFinalEx rfl
  exact ⟨rfl, by decide, h4, h3⟩

/-- C19, amended, at the full queue `filaCheiaEx`: the vacated slot 3 is the
one the next enqueue writes. -/
theorem slot_vago_witness :
    Inv filaCheiaEx ∧ 0 < filaCheiaEx.size ∧
    ∃ fila1 out1 fila2, dequeue filaCheiaEx pecaEx = some (true, fila1, out1) ∧
      enqueue fila1 pecaEx = some (true, fila2) ∧
      fila1.buffer ⟨3, by decide⟩ = out1 ∧ fila2.buffer ⟨3, by decide⟩ = pecaEx := by
  obtain ⟨f1, o1, f2, hd, he, -, h4⟩ :=
    slot_vago filaCheiaEx pecaEx pecaEx (by decide) (by decide)
  obtain ⟨ha, hb, -⟩ := h4 ⟨3, by decide⟩ rfl
  exact ⟨by decide, by decide, f1, o1, f2, hd, he, ha, hb (by decide)⟩

/-- C20 at the session that reads the choices 1 and 2: the queue holds the
ids 2 to 6 and the counter is 7. -/
theorem ids_consecutivos_witness :
    main filaEx pecaEx "1\n2\n".toList (fun n => n) 2 = some (true, sessaoFinalEx) ∧
    idsFila sessaoFinalEx = [2, 3, 4, 5, 6] ∧
    idsFila sessaoFinalEx = (List.range sessaoFinalEx.fila.size.toNat).map
      (fun (i : Nat) => sessaoFinalEx.proximoId - sessaoFinalEx.fila.size + i) ∧
    List.Pairwise (fun x y : Int => x < y) (idsFila sessaoFinalEx) := by
  obtain ⟨h1, h2, -⟩ :=
    ids_consecutivos filaEx pecaEx "1\n2\n".toList (fun n => n) 2 true sessaoFinalEx rfl
  exact ⟨rfl, by decide, h1, h2⟩

end Tetris
